import Mathlib

/-!
# Verification of bionic's code-hashing core

This development embeds the dependency-extraction-plus-hashing subsystem of
the bionic repository (`bionic/code_references.py` and `bionic/code_hasher.py`).
Those two source files are not present under `src/`; only their test suites
(`tests/test_code_hasher.py`, `tests/test_code_references.py`) are.  The
definitions below are therefore modelled from the specification, adjusted
wherever the tests pin concrete behavior — in particular
`test_complex_function` in `tests/test_code_references.py` records the exact
reference trace of the hasher's own `_ingest` method, which fixes the branch
structure of the hasher, and `test_changes_in_another_module` /
`test_complex_type_warning` fix the internal/external-routine and
complex-object branches.

Digests: the real hasher feeds a byte stream (a type-prefix code followed by
an optional payload, per value) into a cryptographic accumulator and returns
its digest.  Equal byte streams give equal digests, and distinct byte
streams give distinct digests up to cryptographic collision, which is the
idealization the specification itself makes ("any change to any ingredient
changes the digest with overwhelming probability").  We therefore model a
digest as the full byte stream handed to the accumulator.
-/

namespace Bionic

/-- A byte string, each entry one byte (we never need to reduce mod 256:
all bytes we construct are genuine bytes). -/
abbrev Bytes := List Nat

/-- `TypePrefix` from `bionic/code_hasher.py`: an enumerated, stable
two-byte code prefixed before the hashed representation of every value.
Modelled from the spec: the concrete byte values of the enum are not in
`src/`; only their pairwise distinctness matters, which `val_injective`
below establishes for this assignment. -/
inductive TypePrefix where
  | BYTES
  | BYTEARRAY
  | NONE
  | INT
  | FLOAT
  | STRING
  | BOOL
  | LIST
  | SET
  | TUPLE
  | DICT
  | BUILTIN
  | ROUTINE
  | CODE
  | INTERNAL_ROUTINE
  | CLASS
  | CIRCULAR_REF
  | DEFAULT
deriving DecidableEq

/-- The two-byte code of each prefix (ASCII pairs "AA", "AB", ..., with the
catch-all complex-object tag "ZZ", mirroring the enum in the source). -/
def TypePrefix.val : TypePrefix → Bytes
  | .BYTES => [65, 65]
  | .BYTEARRAY => [65, 66]
  | .NONE => [65, 67]
  | .INT => [65, 68]
  | .FLOAT => [65, 69]
  | .STRING => [65, 70]
  | .BOOL => [65, 71]
  | .LIST => [65, 72]
  | .SET => [65, 73]
  | .TUPLE => [65, 74]
  | .DICT => [65, 75]
  | .BUILTIN => [65, 76]
  | .ROUTINE => [65, 77]
  | .CODE => [65, 78]
  | .INTERNAL_ROUTINE => [65, 79]
  | .CLASS => [65, 80]
  | .CIRCULAR_REF => [65, 81]
  | .DEFAULT => [90, 90]

/-- UTF-8 encoding of a string, modelled as the list of code points (the
encoding is injective, which is all the hasher relies on). -/
def strBytes (s : String) : Bytes :=
  s.data.map Char.toNat

/-- Python's `str()` of a `bool` (capitalized, unlike Lean's `toString`). -/
def pyBoolStr (b : Bool) : String :=
  if b then "True" else "False"

/-- Python's `str.startswith`, character by character. -/
def strStartsWith (s p : String) : Bool :=
  List.isPrefixOf p.data s.data

/-- Python scalar values.  These are immutable leaves of the object graph;
they can never participate in a reference cycle, so we keep them immediate
rather than heap-allocated.  Floats are represented by their `str()` image
(e.g. "0.0", "-0.0", "inf", "nan"): the hasher only ever consumes
`str(obj).encode()` for floats. -/
inductive PyScalar where
  | none
  | bool (b : Bool)
  | int (n : Int)
  | float (s : String)
  | str (s : String)
  | bytes (bs : Bytes)
  | bytearray (bs : Bytes)
deriving DecidableEq

/-- A reference to a Python value: either an immediate scalar or the
address of a heap object.  Identity (`id()` in Python) is modelled by heap
addresses; the cycle guard only ever matters for heap objects, since
scalars have no children. -/
inductive Ref where
  | imm (v : PyScalar)
  | addr (a : Nat)
deriving DecidableEq

/-- Bytecode instructions, with the indirections CPython uses: name-table
indices rather than inline strings (`co_code` stores indices into
`co_names`/`co_varnames`/cell space, so two functions referring to
differently named globals can have identical `co_code`).  Every opcode the
extractor does not treat specially is represented by `other` carrying its
raw opcode and argument bytes. -/
inductive Instr where
  | LOAD_GLOBAL (i : Nat)
  | LOAD_DEREF (i : Nat)
  | LOAD_CLOSURE (i : Nat)
  | LOAD_FAST (i : Nat)
  | STORE_FAST (i : Nat)
  | DELETE_FAST (i : Nat)
  | LOAD_ATTR (i : Nat)
  | LOAD_METHOD (i : Nat)
  | IMPORT_FROM (i : Nat)
  | IMPORT_NAME (i : Nat)
  | LOAD_CONST (i : Nat)
  | other (op : Nat) (arg : Nat)
deriving DecidableEq

/-- The two raw bytes of one instruction in `co_code` (opcode byte and
argument byte, CPython's opcode numbering). -/
def instrBytes : Instr → Bytes
  | .LOAD_GLOBAL i => [116, i]
  | .LOAD_DEREF i => [136, i]
  | .LOAD_CLOSURE i => [135, i]
  | .LOAD_FAST i => [124, i]
  | .STORE_FAST i => [125, i]
  | .DELETE_FAST i => [126, i]
  | .LOAD_ATTR i => [106, i]
  | .LOAD_METHOD i => [160, i]
  | .IMPORT_FROM i => [109, i]
  | .IMPORT_NAME i => [108, i]
  | .LOAD_CONST i => [100, i]
  | .other op arg => [op, arg]

/-- A code object (`types.CodeType`).  `names`, `varnamesList`, `cellvars`,
`freevars`, `name`, `filename` and `firstlineno` are consulted for
resolution or classification but never ingested into the digest; only
`instrs` (as raw `co_code` bytes) and `consts` are. -/
structure PyCode where
  instrs : List Instr
  names : List String
  varnamesList : List String
  cellvars : List String
  freevars : List String
  consts : List Ref
  name : String
  filename : String
  firstlineno : Nat
deriving DecidableEq

/-- The raw `co_code` byte string of a code object. -/
def codeBytes (c : PyCode) : Bytes :=
  c.instrs.foldr (fun i acc => instrBytes i ++ acc) []

/-- A function object.  `closure` holds the heap addresses of the cell
objects captured for `code.freevars` (in the same order); `defaults` is
`__defaults__` (`None` or a heap tuple). -/
structure PyFunc where
  module : String
  name : String
  defaults : Ref
  globals : List (String × Ref)
  code : PyCode
  closure : List Nat
deriving DecidableEq

/-- Heap objects: every Python object with identity-relevant structure.
`complexObj` is any object of a category the hasher does not recognize
(it records the type name, which is observable only through the warning
channel). -/
inductive PyObj where
  | list (elems : List Ref)
  | tuple (elems : List Ref)
  | set (elems : List Ref)
  | dict (entries : List (Ref × Ref))
  | cell (content : Ref)
  | func (f : PyFunc)
  | code (c : PyCode)
  | module (name : String) (attrs : List (String × Ref))
  | builtin (modName : String) (name : String)
  | pyclass (name : String)
  | complexObj (typeName : String)
deriving DecidableEq

/-- The heap: an association of addresses to objects. -/
abbrev Heap := List (Nat × PyObj)

def lookupObj (h : Heap) (a : Nat) : Option PyObj :=
  (h.find? (fun p => p.1 == a)).map (·.2)

def heapAddrs (h : Heap) : List Nat :=
  h.map (·.1)

/-- `getattr` as the extractor uses it: in this model only modules expose
statically resolvable attributes (the scenarios of the repository's claims
resolve attributes on modules; attribute access on anything else takes the
failure path, as `getattr` raising or the receiver being symbolic does). -/
def getattrObj : PyObj → String → Option Ref
  | .module _ attrs, n => attrs.lookup n
  | _, _ => Option.none

/-- Python truthiness of a value, as tested by the extractor's
`and tos` conditions. -/
def refTruthy (h : Heap) : Ref → Bool
  | .imm .none => false
  | .imm (.bool b) => b
  | .imm (.int n) => n != 0
  | .imm (.float s) => !(s == "0.0" || s == "-0.0")
  | .imm (.str s) => s != ""
  | .imm (.bytes bs) => !bs.isEmpty
  | .imm (.bytearray bs) => !bs.isEmpty
  | .addr a =>
    match lookupObj h a with
    | some (.list es) => !es.isEmpty
    | some (.tuple es) => !es.isEmpty
    | some (.set es) => !es.isEmpty
    | some (.dict es) => !es.isEmpty
    | _ => true

/-- `CodeContext` from `bionic/code_references.py`: the binding context a
unit is analyzed against. -/
structure CodeContext where
  globals : List (String × Ref)
  cells : List (String × Ref)
  varnames : List (String × Ref)
deriving DecidableEq

/-- The current content of a captured cell (`cell.cell_contents`); the
fallback is unreachable for closures built by the interpreter, whose
`__closure__` always holds cell objects. -/
def cellContent (h : Heap) (a : Nat) : Ref :=
  match lookupObj h a with
  | some (.cell r) => r
  | _ => Ref.imm .none

/-- `get_code_context`: cell variables map to their own *names* (their
values do not exist before the closure runs), free variables map to the
current contents of the captured cells, snapshotted now, at analysis time. -/
def get_code_context (h : Heap) (f : PyFunc) : CodeContext :=
  { globals := f.globals
    cells :=
      (f.code.cellvars.map (fun v => (v, Ref.imm (.str v))))
        ++ (f.code.freevars.zip (f.closure.map (cellContent h)))
    varnames := [] }

/-- The name a `LOAD_DEREF`/`LOAD_CLOSURE` argument denotes: CPython's
cell-index space is `co_cellvars ++ co_freevars`. -/
def derefName (c : PyCode) (i : Nat) : String :=
  (c.cellvars ++ c.freevars).getD i ""

/-- State of the extractor's single pass: the symbolic top-of-stack, the
tracked local bindings (`context.varnames`, which the pass mutates), and
the references emitted so far, in order. -/
structure ExtState where
  tos : Option Ref
  varnames : List (String × Ref)
  refs : List Ref
deriving DecidableEq

/-- `set_tos`: flush the current top-of-stack into the reference list and
replace it. -/
def setTos (st : ExtState) (t : Ref) : ExtState :=
  { st with
    tos := some t
    refs :=
      match st.tos with
      | some r => st.refs ++ [r]
      | Option.none => st.refs }

/-- The catch-all arm of the instruction loop: any other instruction
flushes the top-of-stack into the reference list. -/
def flushTos (st : ExtState) : ExtState :=
  { st with
    tos := Option.none
    refs :=
      match st.tos with
      | some r => st.refs ++ [r]
      | Option.none => st.refs }

/-- One step of `get_referenced_objects`'s instruction walk.

  * `LOAD_GLOBAL`: resolve against the global mapping, else push the bare
    name (as a string value — unresolved names and resolved strings are
    both `str` at runtime).
  * `LOAD_DEREF`/`LOAD_CLOSURE`: resolve against the cell mapping.
  * attribute group (`LOAD_ATTR`/`LOAD_METHOD`/`IMPORT_FROM`): with no
    receiver emit the bare attribute name; a string receiver accumulates a
    dotted name; a resolved receiver attempts the attribute access, and on
    failure degrades to the bare name.
  * `STORE_FAST`/`DELETE_FAST` with a *truthy* top-of-stack update the
    tracked locals (the source tests truthiness, not presence, so falsy
    values fall through to the catch-all arm).
  * `LOAD_FAST` of a tracked local pushes its value; of anything else
    (arguments, untracked locals) behaves like the catch-all arm.
  * `IMPORT_NAME`: modelled from the spec and `test_empty_references`
    (a body-local import contributes nothing and the imported module is
    not tracked as a local): like the catch-all arm, it leaves no
    top-of-stack behind.
-/
def extStep (h : Heap) (c : PyCode) (globals cells : List (String × Ref))
    (st : ExtState) : Instr → ExtState
  | .LOAD_GLOBAL i =>
    let n := c.names.getD i ""
    match globals.lookup n with
    | some r => setTos st r
    | Option.none => setTos st (Ref.imm (.str n))
  | .LOAD_DEREF i =>
    let n := derefName c i
    setTos st ((cells.lookup n).getD (Ref.imm (.str n)))
  | .LOAD_CLOSURE i =>
    let n := derefName c i
    setTos st ((cells.lookup n).getD (Ref.imm (.str n)))
  | .LOAD_ATTR i =>
    extAttr h c i st
  | .LOAD_METHOD i =>
    extAttr h c i st
  | .IMPORT_FROM i =>
    extAttr h c i st
  | .IMPORT_NAME _ =>
    flushTos st
  | .STORE_FAST i =>
    let n := c.varnamesList.getD i ""
    match st.tos with
    | some r =>
      if refTruthy h r then
        { st with
          tos := Option.none
          varnames := (n, r) :: st.varnames.filter (fun p => !(p.1 == n)) }
      else flushTos st
    | Option.none => flushTos st
  | .DELETE_FAST i =>
    let n := c.varnamesList.getD i ""
    match st.tos with
    | some r =>
      if refTruthy h r then
        { st with
          tos := Option.none
          varnames := st.varnames.filter (fun p => !(p.1 == n)) }
      else flushTos st
    | Option.none => flushTos st
  | .LOAD_FAST i =>
    let n := c.varnamesList.getD i ""
    match st.varnames.lookup n with
    | some r => setTos st r
    | Option.none => flushTos st
  | .LOAD_CONST _ => flushTos st
  | .other _ _ => flushTos st
where
  /-- The attribute-access group shared by `LOAD_ATTR`, `LOAD_METHOD` and
  `IMPORT_FROM`. -/
  extAttr (h : Heap) (c : PyCode) (i : Nat) (st : ExtState) : ExtState :=
    let n := c.names.getD i ""
    match st.tos with
    | Option.none => { st with refs := st.refs ++ [Ref.imm (.str n)] }
    | some (Ref.imm (.str s)) =>
      { st with tos := some (Ref.imm (.str (s ++ "." ++ n))) }
    | some (Ref.addr a) =>
      match (lookupObj h a).bind (fun o => getattrObj o n) with
      | some r => { st with tos := some r }
      | Option.none => { st with tos := some (Ref.imm (.str n)) }
    | some (Ref.imm _) => { st with tos := some (Ref.imm (.str n)) }

/-- The extractor's instruction loop: fold `extStep` over a run of
instructions. -/
def extRun (h : Heap) (c : PyCode) (globals cells : List (String × Ref))
    (l : List Instr) (st : ExtState) : ExtState :=
  l.foldl (extStep h c globals cells) st

/-- `get_referenced_objects(code, context)`: a single linear pass over the
instruction stream; the references accumulated in the state are returned
in emission order (a top-of-stack left over after the last instruction is
not flushed, matching the source's final `return refs`). -/
def get_referenced_objects (h : Heap) (c : PyCode) (ctx : CodeContext) : List Ref :=
  (extRun h c ctx.globals ctx.cells c.instrs
    { tos := Option.none, varnames := ctx.varnames, refs := [] }).refs

/-- State of one top-level hash invocation: the byte stream accumulated so
far, the identity stack of objects currently being hashed (the cycle
guard; fresh per top-level call, never shared between calls), and the
warnings issued so far. -/
structure HState where
  stream : Bytes
  guard : List Nat
  warns : List String
deriving DecidableEq

/-- `_ingest_raw_prefix_and_bytes`: append a type prefix and an optional
payload to the accumulator's input stream. -/
def ingestRaw (st : HState) (p : TypePrefix) (payload : Option Bytes) : HState :=
  { st with stream := st.stream ++ p.val ++ payload.getD [] }

/-- Python's `str(len(...))`, encoded. -/
def lenBytes (n : Nat) : Bytes :=
  strBytes (toString n)

/-- The scalar branches of `_ingest`, in the source's branch order
(`bytes`, `bytearray`, `None`, `int`, `float`, `str`, `bool`).  Because
`isinstance(True, int)` holds in Python, booleans are captured by the
`int` branch with payload `str(True)`/`str(False)`; the later `bool`
branch of the source is unreachable. -/
def scalarIngest (st : HState) : PyScalar → HState
  | .bytes bs => ingestRaw st .BYTES (some bs)
  | .bytearray bs => ingestRaw st .BYTEARRAY (some bs)
  | .none => ingestRaw st .NONE Option.none
  | .bool b => ingestRaw st .INT (some (strBytes (pyBoolStr b)))
  | .int n => ingestRaw st .INT (some (strBytes (toString n)))
  | .float s => ingestRaw st .FLOAT (some (strBytes s))
  | .str s => ingestRaw st .STRING (some (strBytes s))

/-- The catch-all branch of `_ingest` (no recognized category): ingest the
`DEFAULT` tag alone — no payload, as `test_complex_type_warning` pins via
`hash(threading.Lock()) == hash(TypePrefix.DEFAULT)` — and emit a warning
carrying the object's type name. -/
def complexIngest (st : HState) (typeName : String) : HState :=
  let st' := ingestRaw st .DEFAULT Option.none
  { st' with warns := st'.warns ++ [typeName] }

/-- The internal-routine test of `_ingest`: a routine is internal when its
module is part of bionic itself or its defining file is classified
internal by the caller-supplied `is_internal_file`. -/
def isInternalRoutine (isInt : String → Bool) (f : PyFunc) : Bool :=
  strStartsWith f.module "bionic" || isInt f.code.filename

/-- Ingest each reference of a list in order through `rec`
(`_check_and_ingest` applied elementwise). -/
def ingestFold (rec : HState → Ref → Option HState) : HState → List Ref → Option HState
  | st, [] => some st
  | st, r :: rest =>
    match rec st r with
    | some st' => ingestFold rec st' rest
    | Option.none => Option.none

/-- Ingest each key/value pair of a mapping, in iteration order. -/
def ingestPairs (rec : HState → Ref → Option HState) :
    HState → List (Ref × Ref) → Option HState
  | st, [] => some st
  | st, p :: rest =>
    match rec st p.1 with
    | some st₁ =>
      match rec st₁ p.2 with
      | some st₂ => ingestPairs rec st₂ rest
      | Option.none => Option.none
    | Option.none => Option.none

/-- `_ingest_code`: ingest the raw `co_code` bytes (a `bytes` value, so it
passes through `_check_and_ingest`), then the `co_consts` tuple, then —
when a binding context is available (function objects; not bare code
objects) — every reference the extractor reports, in emission order. -/
def ingestCodeWith (rec : HState → Ref → Option HState) (h : Heap) (c : PyCode)
    (ctx : Option CodeContext) (st : HState) : Option HState :=
  match rec st (Ref.imm (.bytes (codeBytes c))) with
  | some st₁ =>
    let st₂ := ingestRaw st₁ .TUPLE (some (lenBytes c.consts.length))
    match ingestFold rec st₂ c.consts with
    | some st₃ =>
      match ctx with
      | some context => ingestFold rec st₃ (get_referenced_objects h c context)
      | Option.none => some st₃
    | Option.none => Option.none
  | Option.none => Option.none

/-- The routine branch of `_ingest`.  An *internal* routine (one belonging
to bionic's own source tree) is deliberately hashed by origin-and-name
only, so that its implementation changes do not propagate; any other
routine is expanded in full: tag, `__defaults__`, and its code with the
context snapshotted now (`get_code_context`), so captured values are
re-observed on every call. -/
def ingestFuncWith (rec : HState → Ref → Option HState) (isInt : String → Bool)
    (h : Heap) (f : PyFunc) (st : HState) : Option HState :=
  if isInternalRoutine isInt f then
    rec (ingestRaw st .INTERNAL_ROUTINE Option.none)
      (Ref.imm (.str (f.module ++ "." ++ f.name)))
  else
    match rec (ingestRaw st .ROUTINE Option.none) f.defaults with
    | some st₁ => ingestCodeWith rec h f.code (some (get_code_context h f)) st₁
    | Option.none => Option.none

/-- `_ingest`'s dispatch over heap objects.  Modules and cells have no
recognized category and take the complex-object branch, like any other
unrecognized object. -/
def objIngestWith (rec : HState → Ref → Option HState) (isInt : String → Bool)
    (h : Heap) (st : HState) : PyObj → Option HState
  | .list es => ingestFold rec (ingestRaw st .LIST (some (lenBytes es.length))) es
  | .tuple es => ingestFold rec (ingestRaw st .TUPLE (some (lenBytes es.length))) es
  | .set es => ingestFold rec (ingestRaw st .SET (some (lenBytes es.length))) es
  | .dict ps => ingestPairs rec (ingestRaw st .DICT (some (lenBytes ps.length))) ps
  | .cell _ => some (complexIngest st "cell")
  | .func f => ingestFuncWith rec isInt h f st
  | .code c => ingestCodeWith rec h c Option.none (ingestRaw st .CODE Option.none)
  | .module _ _ => some (complexIngest st "module")
  | .builtin m n =>
    rec (ingestRaw st .BUILTIN Option.none) (Ref.imm (.str (m ++ "." ++ n)))
  | .pyclass n => some (ingestRaw st .CLASS (some (strBytes n)))
  | .complexObj t => some (complexIngest st t)

/-- `_check_and_ingest`: scalars are ingested directly; for a heap object,
first consult the cycle guard — an object whose hashing has started but
not completed is represented by the `CIRCULAR_REF` tag plus the depth at
which its hashing began (the guard must distinguish differently shaped
cycles: the two circular dict chains of `test_code_hasher` hash
differently), without recursing — otherwise push the object on the guard,
dispatch on its category, and pop the guard. -/
def checkAndIngestStep (isInt : String → Bool) (h : Heap)
    (rec : HState → Ref → Option HState) (st : HState) : Ref → Option HState
  | .imm v => some (scalarIngest st v)
  | .addr a =>
    match st.guard.findIdx? (fun b => b == a) with
    | some i => some (ingestRaw st .CIRCULAR_REF (some (lenBytes i)))
    | Option.none =>
      match lookupObj h a with
      | Option.none => Option.none
      | some o =>
        (objIngestWith rec isInt h { st with guard := st.guard ++ [a] } o).map
          (fun st' => { st' with guard := st.guard })

/-- The recursive hasher, with a fuel bound on recursion depth (the Python
recursion is bounded by the interpreter's stack; `hashFuel` below is
always sufficient for a closed heap, as proved in the termination
theorem). -/
def checkAndIngest (isInt : String → Bool) (h : Heap) :
    Nat → HState → Ref → Option HState
  | 0, st, r => checkAndIngestStep isInt h (fun _ _ => Option.none) st r
  | fuel + 1, st, r => checkAndIngestStep isInt h (checkAndIngest isInt h fuel) st r

/-- The fresh per-call state: empty stream, empty cycle guard, no
warnings.  Nothing is carried over between top-level invocations. -/
def initHState : HState :=
  { stream := [], guard := [], warns := [] }

/-- Sufficient recursion depth for a heap: the guard grows by one distinct
heap address per level, so the depth of guarded nesting never exceeds the
number of heap objects. -/
def hashFuel (h : Heap) : Nat :=
  h.length + 1

/-- One full top-level hash invocation (a fresh `CodeHasher` instance). -/
def hashRun (isInt : String → Bool) (h : Heap) (r : Ref) : Option HState :=
  checkAndIngest isInt h (hashFuel h) initHState r

/-- `CodeHasher.hash(obj)`: the digest, i.e. the byte stream fed to the
accumulator. -/
def CodeHasher.hash (isInt : String → Bool) (h : Heap) (r : Ref) : Option Bytes :=
  (hashRun isInt h r).map (·.stream)

/-- The warnings issued during one top-level hash invocation, in order. -/
def CodeHasher.warnings (isInt : String → Bool) (h : Heap) (r : Ref) :
    Option (List String) :=
  (hashRun isInt h r).map (·.warns)

/-- All references the hasher or extractor can pull directly out of one
heap object: container elements, dict keys and values, a cell's content,
and — for a function — its defaults, its global bindings, its closure
cells and its code constants (the extractor resolves references only
through these); for a module, its attribute values. -/
def objChildRefs : PyObj → List Ref
  | .list es => es
  | .tuple es => es
  | .set es => es
  | .dict ps => ps.map Prod.fst ++ ps.map Prod.snd
  | .cell r => [r]
  | .func f =>
    f.defaults :: (f.globals.map Prod.snd ++ f.closure.map Ref.addr ++ f.code.consts)
  | .code c => c.consts
  | .module _ attrs => attrs.map Prod.snd
  | .builtin _ _ => []
  | .pyclass _ => []
  | .complexObj _ => []

def refAddrs : Ref → List Nat
  | .imm _ => []
  | .addr a => [a]

def childRefsAt (h : Heap) (a : Nat) : List Ref :=
  match lookupObj h a with
  | some o => objChildRefs o
  | Option.none => []

/-- `R` is closed under following references in `h`. -/
def closedOn (h : Heap) (R : List Nat) : Prop :=
  ∀ a ∈ R, ∀ r ∈ childRefsAt h a, ∀ b ∈ refAddrs r, b ∈ R

/-- Two heaps agree on every address of `R`. -/
def agreeOn (h₁ h₂ : Heap) (R : List Nat) : Prop :=
  ∀ a ∈ R, lookupObj h₁ a = lookupObj h₂ a

/-- A closed heap: every reference stored in it points back into it (every
live Python object graph is closed). -/
def heapClosed (h : Heap) : Prop :=
  closedOn h (heapAddrs h)

/-- All addresses of `r` lie in `R`. -/
def refOk (R : List Nat) (r : Ref) : Prop :=
  ∀ b ∈ refAddrs r, b ∈ R

/-- The number of heap objects not yet on the cycle guard: the measure
that shrinks at every guarded descent. -/
def freeCount (h : Heap) (guard : List Nat) : Nat :=
  ((heapAddrs h).filter (fun a => !decide (a ∈ guard))).length

/-- Every value bound in an association list stays inside `R`. -/
def ctxRefsOk (R : List Nat) (l : List (String × Ref)) : Prop :=
  ∀ p ∈ l, refOk R p.2

/-- The symbolic top-of-stack, when present, stays inside `R`. -/
def tosOk (R : List Nat) (t : Option Ref) : Prop :=
  ∀ r, t = some r → refOk R r

/-- Invariant of the extractor's state: every reference it holds — on the
symbolic stack, in the tracked locals, or already emitted — stays inside
`R`. -/
def extInv (R : List Nat) (st : ExtState) : Prop :=
  tosOk R st.tos ∧ ctxRefsOk R st.varnames ∧ ∀ r ∈ st.refs, refOk R r

instance (h : Heap) (R : List Nat) : Decidable (closedOn h R) :=
  inferInstanceAs (Decidable (∀ a ∈ R, ∀ r ∈ childRefsAt h a, ∀ b ∈ refAddrs r, b ∈ R))

instance (h₁ h₂ : Heap) (R : List Nat) : Decidable (agreeOn h₁ h₂ R) :=
  inferInstanceAs (Decidable (∀ a ∈ R, lookupObj h₁ a = lookupObj h₂ a))

instance (h : Heap) : Decidable (heapClosed h) :=
  inferInstanceAs (Decidable (closedOn h (heapAddrs h)))

instance (R : List Nat) (r : Ref) : Decidable (refOk R r) :=
  inferInstanceAs (Decidable (∀ b ∈ refAddrs r, b ∈ R))

/-- The tests' `get_references(func)` helper:
`get_referenced_objects(func.__code__, get_code_context(func))`. -/
def getRefs (h : Heap) (f : PyFunc) : List Ref :=
  get_referenced_objects h f.code (get_code_context h f)

/-! ## Concrete scenarios from the test suite -/

/-- The callee of `test_changes_in_another_module`:
`def f_mod(): return <c>` in a separate module. -/
def c1CalleeCode (c : Int) : PyCode :=
  { instrs := [.LOAD_CONST 1, .other 83 0]
    names := []
    varnamesList := []
    cellvars := []
    freevars := []
    consts := [.imm .none, .imm (.int c)]
    name := "f_mod"
    filename := "f_mod_file"
    firstlineno := 2 }

/-- The heap of `test_changes_in_another_module`: module `m` exposing
`f_mod` (whose body returns the constant `c`), and the caller
`def f(): return m.f_mod()`. -/
def c1Heap (c : Int) : Heap :=
  [ (100, .module "f_mod_module" [("f_mod", .addr 101)])
  , (101, .func
      { module := "f_mod_module", name := "f_mod", defaults := .imm .none
        globals := [], code := c1CalleeCode c, closure := [] })
  , (103, .func
      { module := "tests.test_code_hasher", name := "f", defaults := .imm .none
        globals := [("m", .addr 100)]
        code :=
          { instrs := [.LOAD_GLOBAL 0, .LOAD_METHOD 1, .other 161 0, .other 83 0]
            names := ["m", "f_mod"]
            varnamesList := []
            cellvars := []
            freevars := []
            consts := [.imm .none]
            name := "f"
            filename := "tests_file"
            firstlineno := 10 }
        closure := [] }) ]

/-- The heap of `test_changes_in_another_module` with an arbitrary callee
implementation: any instruction stream, constant pool, defaults and
location for `f_mod`, its module and name fixed. -/
def c1HeapG (body : List Instr) (cs : List Ref) (dflt : Ref) (ln : Nat) : Heap :=
  [ (100, .module "f_mod_module" [("f_mod", .addr 101)])
  , (101, .func
      { module := "f_mod_module", name := "f_mod", defaults := dflt
        globals := []
        code :=
          { instrs := body, names := [], varnamesList := [], cellvars := []
            freevars := [], consts := cs, name := "f_mod"
            filename := "f_mod_file", firstlineno := ln }
        closure := [] })
  , (103, .func
      { module := "tests.test_code_hasher", name := "f", defaults := .imm .none
        globals := [("m", .addr 100)]
        code :=
          { instrs := [.LOAD_GLOBAL 0, .LOAD_METHOD 1, .other 161 0, .other 83 0]
            names := ["m", "f_mod"]
            varnamesList := []
            cellvars := []
            freevars := []
            consts := [.imm .none]
            name := "f"
            filename := "tests_file"
            firstlineno := 10 }
        closure := [] }) ]

/-- The classification with the callee's module internal
(`is_module_internal=True`). -/
def c1Internal : String → Bool := fun s => s == "f_mod_file"

/-- The classification with every module external
(`is_module_internal=False`). -/
def c1External : String → Bool := fun _ => false

/-- `def f(): return v` with `v` a free variable captured in cell 1. -/
def c3Code : PyCode :=
  { instrs := [.LOAD_DEREF 0, .other 83 0]
    names := []
    varnamesList := []
    cellvars := []
    freevars := ["v"]
    consts := [.imm .none]
    name := "f"
    filename := "tests_file"
    firstlineno := 20 }

/-- The heap of `test_changes_in_references`: a cell holding `v` and the
closure `f` capturing it. -/
def c3Heap (v : Int) : Heap :=
  [ (1, .cell (.imm (.int v)))
  , (2, .func
      { module := "tests.test_code_hasher", name := "f", defaults := .imm .none
        globals := [], code := c3Code, closure := [1] }) ]

/-- Rebinding a captured cell (`v = 10` executed in the enclosing scope). -/
def setCellContent (h : Heap) (a : Nat) (r : Ref) : Heap :=
  h.map (fun p => if p.1 == a then (p.1, PyObj.cell r) else p)

/-- `def g(): return <global>` — the body of `test_global_variable_references`'s
functions, parametrized by the name table and the lexical data that differ
between the two definitions. -/
def c5Code (names : List String) (nm : String) (ln : Nat) : PyCode :=
  { instrs := [.LOAD_GLOBAL 0, .other 83 0]
    names := names
    varnamesList := []
    cellvars := []
    freevars := []
    consts := [.imm .none]
    name := nm
    filename := "tests_file"
    firstlineno := ln }

/-- First function of the pair: `def g1(): return global_var_10`. -/
def c5F1 : PyFunc :=
  { module := "tests.test_code_hasher", name := "g1", defaults := .imm .none
    globals := [("global_var_10", .imm (.int 10))]
    code := c5Code ["global_var_10"] "g1" 5, closure := [] }

/-- Second function: `def g2(): return global_var_10_copy` — an identical
body at a different lexical location, under a different name, referencing
a differently named global bound to the equal value `10`. -/
def c5F2 : PyFunc :=
  { module := "tests.test_code_hasher", name := "g2", defaults := .imm .none
    globals := [("global_var_10_copy", .imm (.int 10))]
    code := c5Code ["global_var_10_copy"] "g2" 9, closure := [] }

/-- Two independently defined functions with identical bodies referencing
distinct global names bound to equal values (`global_var_10` and
`global_var_10_copy`, both `10`). -/
def c5Heap : Heap :=
  [ (1, .func c5F1), (2, .func c5F2) ]

/-- The code of `x` in `test_multiple_references` (CPython compilation of
the body; cell index space: `cellvars ["cell_var"] ++ freevars
["get_val", "free_var"]`). -/
def c6Code : PyCode :=
  { instrs :=
      [ .LOAD_CONST 1          -- "local_val"
      , .LOAD_CONST 2          -- ("local_key",)
      , .other 156 1           -- BUILD_CONST_KEY_MAP
      , .STORE_FAST 1          -- local_var
      , .LOAD_DEREF 1          -- get_val
      , .LOAD_FAST 1           -- local_var
      , .LOAD_CONST 3          -- "local_key"
      , .other 131 2           -- CALL_FUNCTION
      , .STORE_FAST 2          -- local_val
      , .LOAD_CONST 4          -- "cell_val"
      , .other 137 0           -- STORE_DEREF cell_var
      , .LOAD_GLOBAL 0         -- logging
      , .LOAD_METHOD 1         -- log
      , .LOAD_GLOBAL 2         -- global_val
      , .LOAD_DEREF 2          -- free_var
      , .LOAD_FAST 2           -- local_val
      , .LOAD_DEREF 0          -- cell_var
      , .LOAD_FAST 0           -- func_def_var
      , .other 161 5           -- CALL_METHOD
      , .other 1 0             -- POP_TOP
      , .LOAD_GLOBAL 3         -- FlowBuilder
      , .LOAD_CONST 5          -- "x"
      , .other 131 1           -- CALL_FUNCTION
      , .STORE_FAST 3          -- builder
      , .LOAD_FAST 3           -- builder
      , .LOAD_METHOD 4         -- build
      , .other 161 0           -- CALL_METHOD
      , .other 1 0             -- POP_TOP
      , .LOAD_CLOSURE 0        -- cell_var
      , .other 102 1           -- BUILD_TUPLE
      , .LOAD_CONST 6          -- inner_x code
      , .LOAD_CONST 7          -- inner_x qualname
      , .other 132 8           -- MAKE_FUNCTION
      , .STORE_FAST 4          -- inner_x
      , .LOAD_CONST 0          -- None
      , .other 83 0 ]          -- RETURN_VALUE
    names := ["logging", "log", "global_val", "FlowBuilder", "build"]
    varnamesList := ["func_def_var", "local_var", "local_val", "builder", "inner_x"]
    cellvars := ["cell_var"]
    freevars := ["get_val", "free_var"]
    consts :=
      [ .imm .none, .imm (.str "local_val"), .addr 20, .imm (.str "local_key")
      , .imm (.str "cell_val"), .imm (.str "x"), .addr 21
      , .imm (.str "test_multiple_references.<locals>.enclosing_x.<locals>.x.<locals>.inner_x") ]
    name := "x"
    filename := "tests_file"
    firstlineno := 166 }

/-- The code of `get_val(dict, key): return dict[key]`. -/
def c6GetValCode : PyCode :=
  { instrs := [.LOAD_FAST 0, .LOAD_FAST 1, .other 25 0, .other 83 0]
    names := []
    varnamesList := ["dict", "key"]
    cellvars := []
    freevars := []
    consts := [.imm .none]
    name := "get_val"
    filename := "tests_file"
    firstlineno := 160 }

/-- The function object `x` of `test_multiple_references`. -/
def c6X : PyFunc :=
  { module := "tests.test_code_references", name := "x", defaults := .addr 22
    globals :=
      [ ("logging", .addr 10), ("global_val", .imm (.int 42))
      , ("FlowBuilder", .addr 14) ]
    code := c6Code
    closure := [15, 16] }

/-- The heap of `test_multiple_references`: the `logging` module and its
routines, `get_val`, `FlowBuilder`, the two captured cells, the constant
tuple pool, and `x` itself. -/
def c6Heap : Heap :=
  [ (10, .module "logging" [("log", .addr 11), ("debug", .addr 12)])
  , (11, .builtin "logging" "log")
  , (12, .builtin "logging" "debug")
  , (13, .func
      { module := "tests.test_code_references", name := "get_val"
        defaults := .imm .none, globals := [], code := c6GetValCode, closure := [] })
  , (14, .pyclass "FlowBuilder")
  , (15, .cell (.addr 13))
  , (16, .cell (.imm (.str "free_val")))
  , (20, .tuple [.imm (.str "local_key")])
  , (21, .code
      { instrs := [], names := [], varnamesList := ["inner_var"], cellvars := []
        freevars := ["cell_var"], consts := [.imm .none], name := "inner_x"
        filename := "tests_file", firstlineno := 175 })
  , (22, .tuple [.imm (.str "func_def_val")])
  , (17, .func c6X) ]

/-- The reference list `test_multiple_references` expects, in emission
order, with `"cell_var"` appearing twice. -/
def c6Expected : List Ref :=
  [ .addr 13                    -- get_val
  , .addr 11                    -- logging.log
  , .imm (.int 42)              -- global_val
  , .imm (.str "free_val")      -- free_var's captured value
  , .imm (.str "cell_var")      -- cell variable, by name
  , .addr 14                    -- FlowBuilder
  , .imm (.str "build")         -- attribute on an untracked local
  , .imm (.str "cell_var") ]    -- the closure tuple of inner_x

/-- The two circular dict chains of `test_code_hasher`: both are
three-dict cycles with identical keys and scalar values; the first closes
back to the first dict, the second closes back to the second. -/
def c7Heap : Heap :=
  [ (1, .dict [(.imm (.str "k11"), .imm (.str "v1")), (.imm (.str "k12"), .addr 2)])
  , (2, .dict [(.imm (.str "k21"), .imm (.str "v2")), (.imm (.str "k22"), .addr 3)])
  , (3, .dict [(.imm (.str "k31"), .imm (.str "v3")), (.imm (.str "k32"), .addr 1)])
  , (4, .dict [(.imm (.str "k11"), .imm (.str "v1")), (.imm (.str "k12"), .addr 5)])
  , (5, .dict [(.imm (.str "k21"), .imm (.str "v2")), (.imm (.str "k22"), .addr 6)])
  , (6, .dict [(.imm (.str "k31"), .imm (.str "v3")), (.imm (.str "k32"), .addr 5)]) ]

/-- A heap with containers of `test_code_hasher`'s values list whose
digests must not collide across category boundaries. -/
def c8Heap : Heap :=
  [ (1, .list [.imm (.int 1), .imm (.int 2), .imm (.str "3")])
  , (2, .list [.imm (.int 1), .imm (.int 2), .imm (.int 3)])
  , (3, .tuple [.imm (.int 1), .imm (.int 2), .imm (.str "3")])
  , (4, .list [])
  , (5, .tuple [])
  , (6, .set []) ]

/-- Two distinct unrecognized objects (two locks) inside one list: one
top-level hash invocation encountering two complex objects. -/
def c9Heap : Heap :=
  [ (1, .complexObj "lock")
  , (2, .complexObj "lock")
  , (3, .list [.addr 1, .addr 2]) ]

/-- Two unrecognized objects of different types (`threading.Lock()` and
the enum member `TypePrefix.DEFAULT` of `test_complex_type_warning`). -/
def c2Heap : Heap :=
  [ (1, .complexObj "lock")
  , (2, .complexObj "TypePrefix") ]

/-- `def x(): import warnings; return warnings` — a body-local import used
only through the local binding, as a plain value. -/
def c10Code : PyCode :=
  { instrs :=
      [ .LOAD_CONST 0, .LOAD_CONST 1, .IMPORT_NAME 0, .STORE_FAST 0
      , .LOAD_FAST 0, .other 83 0 ]
    names := ["warnings"]
    varnamesList := ["warnings"]
    cellvars := []
    freevars := []
    consts := [.imm (.int 0), .imm .none]
    name := "x"
    filename := "tests_file"
    firstlineno := 31 }

/-- `def x(): import warnings; warnings.warn("x")` — a body-local import
used, again only through the local binding, for an attribute call. -/
def c10AttrCode : PyCode :=
  { instrs :=
      [ .LOAD_CONST 0, .LOAD_CONST 1, .IMPORT_NAME 0, .STORE_FAST 0
      , .LOAD_FAST 0, .LOAD_METHOD 1, .LOAD_CONST 2, .other 161 1
      , .other 1 0, .LOAD_CONST 1, .other 83 0 ]
    names := ["warnings", "warn"]
    varnamesList := ["warnings"]
    cellvars := []
    freevars := []
    consts := [.imm (.int 0), .imm .none, .imm (.str "x")]
    name := "x"
    filename := "tests_file"
    firstlineno := 40 }

/-- The binding context of a top-level test function with no captures. -/
def emptyCtx : CodeContext :=
  { globals := [], cells := [], varnames := [] }

/-- First heap for the determinism scenario: the hashed value is the list
at address 1; address 3 is unrelated. -/
def c4Heap₁ : Heap :=
  [ (1, .list [.imm (.int 1), .addr 2])
  , (2, .list [])
  , (3, .complexObj "junk") ]

/-- Second heap: identical on the part reachable from address 1, different
elsewhere (the unrelated object changed between the two invocations). -/
def c4Heap₂ : Heap :=
  [ (1, .list [.imm (.int 1), .addr 2])
  , (2, .list [])
  , (3, .pyclass "Other") ]

/-!
## Theorems

First the claims settled by direct computation, then the general lemmas
about the extractor and the hasher, then the remaining claims.
-/

/-- Claim C1, counterexample.  The claim states that for a routine `f`
calling a routine `g` of an *external* module, changing `g`'s
implementation does not change `hash(f)`, and that for an *internal*
module it does.  At the exact scenario of `test_changes_in_another_module`
(`def f(): return m.f_mod()`, with `f_mod`'s body returning `1`
resp. `2`), both directions are the opposite: with the callee module
external the hash changes, and with it internal the hash does not. -/
theorem C1_counterexample :
    CodeHasher.hash c1External (c1Heap 1) (.addr 103)
      ≠ CodeHasher.hash c1External (c1Heap 2) (.addr 103)
    ∧ CodeHasher.hash c1Internal (c1Heap 1) (.addr 103)
      = CodeHasher.hash c1Internal (c1Heap 2) (.addr 103) := by
  constructor
  · decide
  · decide

set_option maxHeartbeats 1600000 in
/-- Claim C1, amended: the directions are swapped.  A routine of an
*internal* module is hashed by origin and name only, so *any* change to
its implementation — any two instruction streams, constant pools,
defaults and locations for the callee — leaves the caller's hash
unchanged; a routine of an *external* module is expanded in full, so
changing its implementation changes the caller's hash. -/
theorem C1_theorem :
    (∀ (b₁ b₂ : List Instr) (cs₁ cs₂ : List Ref) (d₁ d₂ : Ref) (l₁ l₂ : Nat),
      CodeHasher.hash c1Internal (c1HeapG b₁ cs₁ d₁ l₁) (.addr 103)
        = CodeHasher.hash c1Internal (c1HeapG b₂ cs₂ d₂ l₂) (.addr 103))
    ∧ CodeHasher.hash c1External (c1Heap 1) (.addr 103)
      ≠ CodeHasher.hash c1External (c1Heap 2) (.addr 103) :=
  ⟨fun _ _ _ _ _ _ _ _ => rfl, by decide⟩

/-- Claim C2, counterexample.  The claim states that an object with no
recognized category is hashed as the opaque tag plus a digest of its type
name, so that opaque objects of different types hash differently.  In the
code the opaque branch ingests the tag alone (the type name appears only
in the warning), so the lock and the enum member — objects of different
types, the very comparison `test_complex_type_warning` makes — hash
*equal*. -/
theorem C2_counterexample :
    lookupObj c2Heap 1 = some (.complexObj "lock")
    ∧ lookupObj c2Heap 2 = some (.complexObj "TypePrefix")
    ∧ CodeHasher.hash c1External c2Heap (.addr 1)
      = CodeHasher.hash c1External c2Heap (.addr 2) := by
  refine ⟨by decide, by decide, by decide⟩

/-- Claim C2, amended: hashing an object with no recognized category
ingests the opaque tag with *no* payload, so any two opaque objects hash
to the same digest regardless of their types; the type name is observable
only through the warning channel. -/
theorem C2_theorem :
    (∀ (t₁ t₂ : String) (isInt : String → Bool),
      CodeHasher.hash isInt [(1, .complexObj t₁)] (.addr 1)
        = CodeHasher.hash isInt [(1, .complexObj t₂)] (.addr 1))
    ∧ (∀ (t : String) (isInt : String → Bool),
      CodeHasher.warnings isInt [(1, .complexObj t)] (.addr 1) = some [t]) :=
  ⟨fun _ _ _ => rfl, fun _ _ => rfl⟩

/-- Claim C3: two executable units that differ only in the bound value of
a free variable (`v = 10` vs `v = 20`) hash differently, and rebinding the
cell back to `10` reproduces the original digest exactly. -/
theorem C3_theorem :
    CodeHasher.hash c1External (c3Heap 10) (.addr 2)
      ≠ CodeHasher.hash c1External (c3Heap 20) (.addr 2)
    ∧ CodeHasher.hash c1External (setCellContent (c3Heap 20) 1 (.imm (.int 10))) (.addr 2)
      = CodeHasher.hash c1External (c3Heap 10) (.addr 2) := by
  constructor
  · decide
  · decide

/-- Claim C8: values of different categories with superficially similar
encodings hash to different digests: `1` vs `True`, `0.0` vs `0`,
`"123"` vs `123`, the empty list vs tuple vs set, and the containers
`[1, 2, "3"]` vs `[1, 2, 3]` vs `(1, 2, "3")`. -/
theorem C8_theorem :
    CodeHasher.hash c1External c8Heap (.imm (.int 1))
      ≠ CodeHasher.hash c1External c8Heap (.imm (.bool true))
    ∧ CodeHasher.hash c1External c8Heap (.imm (.float "0.0"))
      ≠ CodeHasher.hash c1External c8Heap (.imm (.int 0))
    ∧ CodeHasher.hash c1External c8Heap (.imm (.str "123"))
      ≠ CodeHasher.hash c1External c8Heap (.imm (.int 123))
    ∧ CodeHasher.hash c1External c8Heap (.addr 4)
      ≠ CodeHasher.hash c1External c8Heap (.addr 5)
    ∧ CodeHasher.hash c1External c8Heap (.addr 4)
      ≠ CodeHasher.hash c1External c8Heap (.addr 6)
    ∧ CodeHasher.hash c1External c8Heap (.addr 5)
      ≠ CodeHasher.hash c1External c8Heap (.addr 6)
    ∧ CodeHasher.hash c1External c8Heap (.addr 1)
      ≠ CodeHasher.hash c1External c8Heap (.addr 2)
    ∧ CodeHasher.hash c1External c8Heap (.addr 1)
      ≠ CodeHasher.hash c1External c8Heap (.addr 3) := by
  refine ⟨by decide, by decide, by decide, by decide, by decide, by decide,
    by decide, by decide⟩

/-- Claim C9, counterexample.  The claim states that a top-level hash
invocation whose input contains an unrecognized object emits *exactly one*
warning.  Hashing a list containing two distinct locks — an input
containing unrecognized objects — emits one warning per encountered
complex object, here two, while still returning a digest. -/
theorem C9_counterexample :
    CodeHasher.warnings c1External c9Heap (.addr 3) = some ["lock", "lock"]
    ∧ (CodeHasher.warnings c1External c9Heap (.addr 3)).map List.length ≠ some 1
    ∧ (CodeHasher.hash c1External c9Heap (.addr 3)).isSome := by
  refine ⟨by decide, by decide, by decide⟩

/-- Claim C9, amended: one warning is emitted per *encounter* of an
unrecognized object — exactly one when the input is a single such object
(each warning carrying its type name) — and the invocation still returns
a digest rather than failing. -/
theorem C9_theorem :
    (∀ (t : String) (isInt : String → Bool),
      CodeHasher.warnings isInt [(1, .complexObj t)] (.addr 1) = some [t]
      ∧ (CodeHasher.hash isInt [(1, .complexObj t)] (.addr 1)).isSome)
    ∧ CodeHasher.warnings c1External c9Heap (.addr 3) = some ["lock", "lock"]
    ∧ (CodeHasher.hash c1External c9Heap (.addr 3)).isSome :=
  ⟨fun _ _ => ⟨rfl, rfl⟩, by decide, by decide⟩

/-- Claim C10, counterexample.  The claim states that every function that
imports a module in its body and uses it only through the resulting local
binding yields an *empty* reference sequence.
`def x(): import warnings; warnings.warn("x")` uses the module only
through the local binding, yet extraction reports the bare attribute name
`"warn"`. -/
theorem C10_counterexample :
    get_referenced_objects ([] : Heap) c10AttrCode emptyCtx = [.imm (.str "warn")]
    ∧ get_referenced_objects ([] : Heap) c10AttrCode emptyCtx ≠ [] := by
  refine ⟨by decide, by decide⟩

/-- Claim C10, amended: a body-local import never reports the imported
module itself: the import emits no reference, the local binding is not
tracked, and a function that uses the import only as a plain value yields
an empty reference sequence (for any heap, global/cell context, imported
name and lexical data); attribute access through the binding contributes
only the bare attribute name. -/
theorem C10_theorem :
    (∀ (h : Heap) (g cells : List (String × Ref)) (w nm fn : String)
      (ci cj ln : Nat) (cs : List Ref),
      get_referenced_objects h
        { instrs := [.LOAD_CONST ci, .LOAD_CONST cj, .IMPORT_NAME 0, .STORE_FAST 0
                    , .LOAD_FAST 0, .other 83 0]
          names := [w], varnamesList := [w], cellvars := [], freevars := []
          consts := cs, name := nm, filename := fn, firstlineno := ln }
        { globals := g, cells := cells, varnames := [] } = [])
    ∧ get_referenced_objects ([] : Heap) c10Code emptyCtx = []
    ∧ get_referenced_objects ([] : Heap) c10AttrCode emptyCtx = [.imm (.str "warn")] :=
  ⟨fun _ _ _ _ _ _ _ _ _ _ => rfl, by decide, by decide⟩

/-!
### The extractor appends: locality of emission

One extractor step reads only the top-of-stack and the tracked locals,
never the references already emitted, and only ever *appends* to them.
-/

theorem extStep_split (h : Heap) (c : PyCode) (g cl : List (String × Ref))
    (tos : Option Ref) (vn : List (String × Ref)) (r : List Ref) (i : Instr) :
    extStep h c g cl ⟨tos, vn, r⟩ i
      = ⟨(extStep h c g cl ⟨tos, vn, []⟩ i).tos,
         (extStep h c g cl ⟨tos, vn, []⟩ i).varnames,
         r ++ (extStep h c g cl ⟨tos, vn, []⟩ i).refs⟩ := by
  cases i <;> cases tos <;>
    simp only [extStep, extStep.extAttr, setTos, flushTos] <;>
    repeat' first
      | rfl
      | (split <;> simp_all)
      | simp

theorem extRun_split (h : Heap) (c : PyCode) (g cl : List (String × Ref)) :
    ∀ (l : List Instr) (tos : Option Ref) (vn : List (String × Ref)) (r : List Ref),
    extRun h c g cl l ⟨tos, vn, r⟩
      = ⟨(extRun h c g cl l ⟨tos, vn, []⟩).tos,
         (extRun h c g cl l ⟨tos, vn, []⟩).varnames,
         r ++ (extRun h c g cl l ⟨tos, vn, []⟩).refs⟩ := by
  intro l
  induction l with
  | nil => intro tos vn r; simp [extRun]
  | cons i l ih =>
    intro tos vn r
    have hstep := extStep_split h c g cl tos vn r i
    rcases hE : extStep h c g cl ⟨tos, vn, []⟩ i with ⟨t', v', δ⟩
    rw [hE] at hstep
    simp only at hstep
    have hL : extRun h c g cl (i :: l) ⟨tos, vn, r⟩
        = extRun h c g cl l ⟨t', v', r ++ δ⟩ := by
      show extRun h c g cl l (extStep h c g cl ⟨tos, vn, r⟩ i) = _
      rw [hstep]
    have hR : extRun h c g cl (i :: l) ⟨tos, vn, []⟩
        = extRun h c g cl l ⟨t', v', δ⟩ := by
      show extRun h c g cl l (extStep h c g cl ⟨tos, vn, []⟩ i) = _
      rw [hE]
    rw [hL, hR, ih t' v' (r ++ δ), ih t' v' δ]
    simp [List.append_assoc]

/-- Claim C6: references are emitted in strict instruction order with no
sorting and no deduplication.  First, generally: the references produced
by a run `i₁ ++ i₂` are exactly the references produced by `i₁` followed
by those produced by `i₂` from the carried state — later instructions only
append, so emission order is instruction order and repeats are kept.
Second, on the exact scenario of `test_multiple_references`, extraction
returns the expected eight references in order, with `"cell_var"` emitted
twice (once per access). -/
theorem C6_theorem :
    (∀ (h : Heap) (c : PyCode) (g cl : List (String × Ref))
      (i₁ i₂ : List Instr) (st : ExtState),
      (extRun h c g cl (i₁ ++ i₂) st).refs
        = (extRun h c g cl i₁ st).refs
          ++ (extRun h c g cl i₂
                ⟨(extRun h c g cl i₁ st).tos, (extRun h c g cl i₁ st).varnames, []⟩).refs)
    ∧ getRefs c6Heap c6X = c6Expected
    ∧ c6Expected.count (.imm (.str "cell_var")) = 2 := by
  refine ⟨?_, by decide, by decide⟩
  intro h c g cl i₁ i₂ st
  have hfold : extRun h c g cl (i₁ ++ i₂) st
      = extRun h c g cl i₂ (extRun h c g cl i₁ st) := by
    show List.foldl _ st (i₁ ++ i₂) = _
    rw [List.foldl_append]
    rfl
  rw [hfold]
  rcases hmid : extRun h c g cl i₁ st with ⟨t₁, v₁, r₁⟩
  rw [extRun_split h c g cl i₂ t₁ v₁ r₁]

/-!
### General lemmas: association lists, filters, the cycle guard
-/

theorem lookup_mem_pair {α β : Type} [BEq α] [LawfulBEq α] :
    ∀ (l : List (α × β)) (a : α) (b : β), l.lookup a = some b → (a, b) ∈ l := by
  intro l
  induction l with
  | nil => intro a b hab; simp [List.lookup] at hab
  | cons p t ih =>
    intro a b hab
    obtain ⟨k, v⟩ := p
    simp only [List.lookup] at hab
    by_cases hk : a == k
    · rw [hk] at hab
      simp only [Option.some.injEq] at hab
      subst hab
      have : a = k := eq_of_beq hk
      subst this
      exact List.mem_cons_self _ _
    · rw [Bool.eq_false_iff.mpr hk] at hab
      exact List.mem_cons_of_mem _ (ih a b hab)

theorem refOk_imm (R : List Nat) (v : PyScalar) : refOk R (.imm v) := by
  intro b hb
  simp [refAddrs] at hb

theorem refOk_addr (R : List Nat) (a : Nat) (r : Ref) (hr : refOk R r)
    (ha : r = .addr a) : a ∈ R := by
  subst ha
  exact hr a (by simp [refAddrs])

theorem getattr_mem (o : PyObj) (n : String) (r : Ref) :
    getattrObj o n = some r → r ∈ objChildRefs o := by
  cases o <;> simp only [getattrObj, objChildRefs] <;> intro hh <;> try exact absurd hh (by simp)
  exact List.mem_map_of_mem Prod.snd (lookup_mem_pair _ n r hh)

theorem lookupObj_of_mem (h : Heap) (a : Nat) :
    a ∈ heapAddrs h → ∃ o, lookupObj h a = some o := by
  induction h with
  | nil => intro ha; simp [heapAddrs] at ha
  | cons p t ih =>
    intro ha
    simp only [heapAddrs, List.map_cons, List.mem_cons] at ha
    by_cases hp : p.1 == a
    · exact ⟨p.2, by simp [lookupObj, List.find?, hp]⟩
    · rcases ha with ha | ha
      · exact absurd (by simp [ha]) hp
      · obtain ⟨o, ho⟩ := ih ha
        refine ⟨o, ?_⟩
        simpa [lookupObj, List.find?, Bool.eq_false_iff.mpr hp] using ho

theorem childRefsAt_eq (h : Heap) (a : Nat) (o : PyObj)
    (ho : lookupObj h a = some o) : childRefsAt h a = objChildRefs o := by
  simp [childRefsAt, ho]

theorem length_filter_mono {α : Type} (p q : α → Bool)
    (hpq : ∀ x, q x = true → p x = true) :
    ∀ l : List α, (l.filter q).length ≤ (l.filter p).length := by
  intro l
  induction l with
  | nil => simp
  | cons x t ih =>
    by_cases hq : q x
    · rw [List.filter_cons, List.filter_cons, if_pos hq, if_pos (hpq x hq)]
      simpa using ih
    · rw [List.filter_cons, List.filter_cons, if_neg (by simpa using hq)]
      by_cases hp : p x
      · rw [if_pos hp]
        exact le_trans ih (Nat.le_succ _)
      · rw [if_neg (by simpa using hp)]
        exact ih

theorem length_filter_lt {α : Type} (p q : α → Bool)
    (hpq : ∀ x, q x = true → p x = true) :
    ∀ (l : List α) (a : α), a ∈ l → p a = true → q a = false →
      (l.filter q).length < (l.filter p).length := by
  intro l
  induction l with
  | nil => intro a ha; simp at ha
  | cons x t ih =>
    intro a ha hpa hqa
    rcases List.mem_cons.mp ha with rfl | hat
    · rw [List.filter_cons, List.filter_cons, if_neg (by simp [hqa]), if_pos hpa]
      simpa using Nat.lt_succ_of_le (length_filter_mono p q hpq t)
    · by_cases hq : q x
      · rw [List.filter_cons, List.filter_cons, if_pos hq, if_pos (hpq x hq)]
        simpa using ih a hat hpa hqa
      · rw [List.filter_cons (p := q), if_neg (by simpa using hq)]
        by_cases hp : p x
        · rw [List.filter_cons, if_pos hp]
          exact Nat.lt_succ_of_lt (ih a hat hpa hqa)
        · rw [List.filter_cons, if_neg (by simpa using hp)]
          exact ih a hat hpa hqa

theorem freeCount_push (h : Heap) (guard : List Nat) (a : Nat)
    (ha : a ∈ heapAddrs h) (hg : a ∉ guard) :
    freeCount h (guard ++ [a]) < freeCount h guard := by
  apply length_filter_lt
  · intro x hx
    simp only [Bool.not_eq_true', decide_eq_false_iff_not] at hx ⊢
    exact fun hmem => hx (List.mem_append_left _ hmem)
  · exact ha
  · simp [hg]
  · simp

theorem freeCount_le (h : Heap) (guard : List Nat) : freeCount h guard ≤ h.length := by
  have := List.length_filter_le (fun a => !decide (a ∈ guard)) (heapAddrs h)
  simpa [freeCount, heapAddrs] using this

theorem agreeOn_refl (h : Heap) (R : List Nat) : agreeOn h h R :=
  fun _ _ => rfl

theorem ingestRaw_guard (st : HState) (p : TypePrefix) (pl : Option Bytes) :
    (ingestRaw st p pl).guard = st.guard := rfl

theorem scalarIngest_guard (st : HState) (v : PyScalar) :
    (scalarIngest st v).guard = st.guard := by
  cases v <;> rfl

theorem checkAndIngestStep_guard (isInt : String → Bool) (h : Heap)
    (rec : HState → Ref → Option HState) (st : HState) (r : Ref) (st' : HState) :
    checkAndIngestStep isInt h rec st r = some st' → st'.guard = st.guard := by
  cases r with
  | imm v =>
    intro hh
    simp only [checkAndIngestStep, Option.some.injEq] at hh
    rw [← hh]
    exact scalarIngest_guard st v
  | addr a =>
    intro hh
    simp only [checkAndIngestStep] at hh
    split at hh
    · simp only [Option.some.injEq] at hh
      rw [← hh]
      rfl
    · split at hh
      · exact absurd hh (by simp)
      · rw [Option.map_eq_some'] at hh
        obtain ⟨y, _, hy⟩ := hh
        rw [← hy]

theorem checkAndIngest_guard (isInt : String → Bool) (h : Heap) (fuel : Nat)
    (st : HState) (r : Ref) (st' : HState) :
    checkAndIngest isInt h fuel st r = some st' → st'.guard = st.guard := by
  cases fuel with
  | zero => exact checkAndIngestStep_guard isInt h _ st r st'
  | succ n => exact checkAndIngestStep_guard isInt h _ st r st'

/-!
### The extractor reads only the reachable part of the heap

The extractor's state never escapes the address set `R` when the context
it starts from lies in `R` and `R` is closed; and two heaps that agree on
`R` drive it identically.
-/

theorem refTruthy_frame (h₁ h₂ : Heap) (R : List Nat) (hag : agreeOn h₁ h₂ R)
    (r : Ref) (hr : refOk R r) : refTruthy h₁ r = refTruthy h₂ r := by
  cases r with
  | imm v => cases v <;> rfl
  | addr a =>
    have ha : a ∈ R := hr a (by simp [refAddrs])
    simp only [refTruthy, hag a ha]

theorem setTos_inv (R : List Nat) (st : ExtState) (t : Ref)
    (hinv : extInv R st) (ht : refOk R t) : extInv R (setTos st t) := by
  obtain ⟨tos, vn, refs⟩ := st
  obtain ⟨h1, h2, h3⟩ := hinv
  refine ⟨?_, h2, ?_⟩
  · intro r hr
    simp only [setTos, Option.some.injEq] at hr
    rw [← hr]
    exact ht
  · intro r hr
    simp only [setTos] at hr
    cases tos with
    | none => exact h3 r hr
    | some r₀ =>
      rcases List.mem_append.mp hr with hmem | hmem
      · exact h3 r hmem
      · rw [List.mem_singleton] at hmem
        rw [hmem]
        exact h1 r₀ rfl

theorem flushTos_inv (R : List Nat) (st : ExtState)
    (hinv : extInv R st) : extInv R (flushTos st) := by
  obtain ⟨tos, vn, refs⟩ := st
  obtain ⟨h1, h2, h3⟩ := hinv
  refine ⟨?_, h2, ?_⟩
  · intro r hr
    simp only [flushTos] at hr
    exact Option.noConfusion hr
  · intro r hr
    simp only [flushTos] at hr
    cases tos with
    | none => exact h3 r hr
    | some r₀ =>
      rcases List.mem_append.mp hr with hmem | hmem
      · exact h3 r hmem
      · rw [List.mem_singleton] at hmem
        rw [hmem]
        exact h1 r₀ rfl

theorem extAttr_frame_inv (h₁ h₂ : Heap) (R : List Nat)
    (hag : agreeOn h₁ h₂ R) (hcl : closedOn h₁ R)
    (c : PyCode) (i : Nat) (st : ExtState) (hinv : extInv R st) :
    extStep.extAttr h₁ c i st = extStep.extAttr h₂ c i st
    ∧ extInv R (extStep.extAttr h₁ c i st) := by
  obtain ⟨tos, vn, refs⟩ := st
  obtain ⟨h1, h2, h3⟩ := hinv
  cases tos with
  | none =>
    refine ⟨rfl, ?_, h2, ?_⟩
    · intro r hr
      simp only [extStep.extAttr] at hr
      exact Option.noConfusion hr
    · intro r hr
      simp only [extStep.extAttr] at hr
      rcases List.mem_append.mp hr with hmem | hmem
      · exact h3 r hmem
      · rw [List.mem_singleton] at hmem
        rw [hmem]
        exact refOk_imm R _
  | some r₀ =>
    cases r₀ with
    | imm v =>
      cases v <;>
        refine ⟨rfl, ?_, h2, h3⟩ <;>
        · intro r hr
          simp only [extStep.extAttr, Option.some.injEq] at hr
          rw [← hr]
          exact refOk_imm R _
    | addr a =>
      have haR : a ∈ R := h1 (.addr a) rfl a (by simp [refAddrs])
      have hlk := hag a haR
      constructor
      · simp only [extStep.extAttr, hlk]
      · simp only [extStep.extAttr]
        cases hres : (lookupObj h₁ a).bind (fun o => getattrObj o (c.names.getD i "")) with
        | none =>
          refine ⟨?_, h2, h3⟩
          intro r hr
          simp only [Option.some.injEq] at hr
          rw [← hr]
          exact refOk_imm R _
        | some r' =>
          refine ⟨?_, h2, h3⟩
          intro r hr
          simp only [Option.some.injEq] at hr
          rw [← hr]
          obtain ⟨o, ho, hgo⟩ := Option.bind_eq_some.mp hres
          have hmem := getattr_mem o _ r' hgo
          rw [← childRefsAt_eq h₁ a o ho] at hmem
          exact hcl a haR r' hmem

theorem extStep_frame_inv (h₁ h₂ : Heap) (R : List Nat)
    (hag : agreeOn h₁ h₂ R) (hcl : closedOn h₁ R)
    (c : PyCode) (g cl : List (String × Ref))
    (hg : ctxRefsOk R g) (hc : ctxRefsOk R cl)
    (st : ExtState) (hinv : extInv R st) (i : Instr) :
    extStep h₁ c g cl st i = extStep h₂ c g cl st i
    ∧ extInv R (extStep h₁ c g cl st i) := by
  cases i with
  | LOAD_GLOBAL i =>
    simp only [extStep]
    cases hlk : g.lookup (c.names.getD i "") with
    | none => exact ⟨trivial, setTos_inv R st _ hinv (refOk_imm R _)⟩
    | some r =>
      exact ⟨trivial, setTos_inv R st _ hinv (hg _ (lookup_mem_pair g _ r hlk))⟩
  | LOAD_DEREF i =>
    simp only [extStep]
    cases hlk : cl.lookup (derefName c i) with
    | none => exact ⟨trivial, setTos_inv R st _ hinv (refOk_imm R _)⟩
    | some r =>
      exact ⟨trivial, setTos_inv R st _ hinv (hc _ (lookup_mem_pair cl _ r hlk))⟩
  | LOAD_CLOSURE i =>
    simp only [extStep]
    cases hlk : cl.lookup (derefName c i) with
    | none => exact ⟨trivial, setTos_inv R st _ hinv (refOk_imm R _)⟩
    | some r =>
      exact ⟨trivial, setTos_inv R st _ hinv (hc _ (lookup_mem_pair cl _ r hlk))⟩
  | LOAD_ATTR i => exact extAttr_frame_inv h₁ h₂ R hag hcl c i st hinv
  | LOAD_METHOD i => exact extAttr_frame_inv h₁ h₂ R hag hcl c i st hinv
  | IMPORT_FROM i => exact extAttr_frame_inv h₁ h₂ R hag hcl c i st hinv
  | IMPORT_NAME i => exact ⟨rfl, flushTos_inv R st hinv⟩
  | STORE_FAST i =>
    obtain ⟨tos, vn, refs⟩ := st
    cases tos with
    | none => exact ⟨rfl, flushTos_inv R _ hinv⟩
    | some r =>
      have hrok : refOk R r := hinv.1 r rfl
      have htr := refTruthy_frame h₁ h₂ R hag r hrok
      constructor
      · simp only [extStep, htr]
      · simp only [extStep]
        by_cases ht : refTruthy h₁ r
        · rw [if_pos ht]
          refine ⟨?_, ?_, hinv.2.2⟩
          · intro r' hr'
            exact Option.noConfusion hr'
          · intro p hp
            rcases List.mem_cons.mp hp with hmem | hmem
            · rw [hmem]
              exact hrok
            · exact hinv.2.1 p (List.mem_of_mem_filter hmem)
        · rw [if_neg ht]
          exact flushTos_inv R _ hinv
  | DELETE_FAST i =>
    obtain ⟨tos, vn, refs⟩ := st
    cases tos with
    | none => exact ⟨rfl, flushTos_inv R _ hinv⟩
    | some r =>
      have hrok : refOk R r := hinv.1 r rfl
      have htr := refTruthy_frame h₁ h₂ R hag r hrok
      constructor
      · simp only [extStep, htr]
      · simp only [extStep]
        by_cases ht : refTruthy h₁ r
        · rw [if_pos ht]
          refine ⟨?_, ?_, hinv.2.2⟩
          · intro r' hr'
            exact Option.noConfusion hr'
          · intro p hp
            exact hinv.2.1 p (List.mem_of_mem_filter hp)
        · rw [if_neg ht]
          exact flushTos_inv R _ hinv
  | LOAD_FAST i =>
    simp only [extStep]
    cases hlk : st.varnames.lookup (c.varnamesList.getD i "") with
    | none => exact ⟨trivial, flushTos_inv R st hinv⟩
    | some r =>
      exact ⟨trivial, setTos_inv R st _ hinv (hinv.2.1 _ (lookup_mem_pair _ _ r hlk))⟩
  | LOAD_CONST i => exact ⟨rfl, flushTos_inv R st hinv⟩
  | other op arg => exact ⟨rfl, flushTos_inv R st hinv⟩

theorem extRun_frame_inv (h₁ h₂ : Heap) (R : List Nat)
    (hag : agreeOn h₁ h₂ R) (hcl : closedOn h₁ R)
    (c : PyCode) (g cl : List (String × Ref))
    (hg : ctxRefsOk R g) (hc : ctxRefsOk R cl) :
    ∀ (l : List Instr) (st : ExtState), extInv R st →
      extRun h₁ c g cl l st = extRun h₂ c g cl l st
      ∧ extInv R (extRun h₁ c g cl l st) := by
  intro l
  induction l with
  | nil => exact fun st hinv => ⟨rfl, hinv⟩
  | cons i t ih =>
    intro st hinv
    obtain ⟨heq, hinv'⟩ := extStep_frame_inv h₁ h₂ R hag hcl c g cl hg hc st hinv i
    obtain ⟨heq', hinv''⟩ := ih (extStep h₁ c g cl st i) hinv'
    constructor
    · show extRun h₁ c g cl t (extStep h₁ c g cl st i)
        = extRun h₂ c g cl t (extStep h₂ c g cl st i)
      rw [← heq, heq']
    · exact hinv''

theorem cellContent_frame (h₁ h₂ : Heap) (R : List Nat) (hag : agreeOn h₁ h₂ R)
    (a : Nat) (ha : a ∈ R) : cellContent h₁ a = cellContent h₂ a := by
  simp only [cellContent, hag a ha]

theorem cellContent_ok (h₁ : Heap) (R : List Nat) (hcl : closedOn h₁ R)
    (a : Nat) (ha : a ∈ R) : refOk R (cellContent h₁ a) := by
  simp only [cellContent]
  cases hlk : lookupObj h₁ a with
  | none => exact refOk_imm R _
  | some o =>
    cases o with
    | cell r =>
      have : r ∈ childRefsAt h₁ a := by
        rw [childRefsAt_eq h₁ a _ hlk]
        simp [objChildRefs]
      exact hcl a ha r this
    | list es => exact refOk_imm R _
    | tuple es => exact refOk_imm R _
    | set es => exact refOk_imm R _
    | dict ps => exact refOk_imm R _
    | func f => exact refOk_imm R _
    | code c => exact refOk_imm R _
    | module n attrs => exact refOk_imm R _
    | builtin m n => exact refOk_imm R _
    | pyclass n => exact refOk_imm R _
    | complexObj t => exact refOk_imm R _

theorem get_code_context_frame (h₁ h₂ : Heap) (R : List Nat)
    (hag : agreeOn h₁ h₂ R) (hcl : closedOn h₁ R) (f : PyFunc)
    (hf : ∀ r ∈ objChildRefs (.func f), refOk R r) :
    get_code_context h₁ f = get_code_context h₂ f
    ∧ ctxRefsOk R (get_code_context h₁ f).globals
    ∧ ctxRefsOk R (get_code_context h₁ f).cells := by
  have hclos : ∀ a ∈ f.closure, a ∈ R := by
    intro a ha
    have hmem : Ref.addr a ∈ objChildRefs (.func f) := by
      simp only [objChildRefs]
      refine List.mem_cons_of_mem _ ?_
      exact List.mem_append_left _ (List.mem_append_right _ (List.mem_map_of_mem Ref.addr ha))
    exact (hf _ hmem) a (by simp [refAddrs])
  refine ⟨?_, ?_, ?_⟩
  · have hmap : f.closure.map (cellContent h₁) = f.closure.map (cellContent h₂) :=
      List.map_congr_left (fun a ha => cellContent_frame h₁ h₂ R hag a (hclos a ha))
    simp only [get_code_context, hmap]
  · intro p hp
    apply hf
    simp only [objChildRefs]
    exact List.mem_cons_of_mem _
      (List.mem_append_left _ (List.mem_append_left _ (List.mem_map_of_mem Prod.snd hp)))
  · intro p hp
    obtain ⟨pn, pr⟩ := p
    simp only [get_code_context] at hp
    rcases List.mem_append.mp hp with hmem | hmem
    · obtain ⟨v, _, hpv⟩ := List.mem_map.mp hmem
      have : pr = Ref.imm (.str v) := congrArg Prod.snd hpv.symm
      rw [this]
      exact refOk_imm R _
    · have h2 := (List.of_mem_zip hmem).2
      obtain ⟨a, ha, hpa⟩ := List.mem_map.mp h2
      rw [← hpa]
      exact cellContent_ok h₁ R hcl a (hclos a ha)

theorem extraction_frame (h₁ h₂ : Heap) (R : List Nat)
    (hag : agreeOn h₁ h₂ R) (hcl : closedOn h₁ R) (c : PyCode) (ctx : CodeContext)
    (hg : ctxRefsOk R ctx.globals) (hc : ctxRefsOk R ctx.cells)
    (hv : ctxRefsOk R ctx.varnames) :
    get_referenced_objects h₁ c ctx = get_referenced_objects h₂ c ctx
    ∧ ∀ r ∈ get_referenced_objects h₁ c ctx, refOk R r := by
  have hinv : extInv R ⟨Option.none, ctx.varnames, []⟩ :=
    ⟨fun r hr => Option.noConfusion hr, hv, by simp⟩
  obtain ⟨heq, hinv'⟩ :=
    extRun_frame_inv h₁ h₂ R hag hcl c ctx.globals ctx.cells hg hc c.instrs _ hinv
  exact ⟨congrArg ExtState.refs heq, hinv'.2.2⟩

/-!
### The hasher reads only the reachable part of the heap
-/

theorem ingestFold_congr (rec₁ rec₂ : HState → Ref → Option HState) :
    ∀ (l : List Ref), (∀ st r, r ∈ l → rec₁ st r = rec₂ st r) →
      ∀ st, ingestFold rec₁ st l = ingestFold rec₂ st l := by
  intro l
  induction l with
  | nil => intro _ _; rfl
  | cons r t ih =>
    intro hall st
    simp only [ingestFold]
    rw [hall st r (List.mem_cons_self r t)]
    cases rec₂ st r with
    | none => rfl
    | some st' => exact ih (fun s x hx => hall s x (List.mem_cons_of_mem r hx)) st'

theorem ingestPairs_congr (rec₁ rec₂ : HState → Ref → Option HState) :
    ∀ (l : List (Ref × Ref)),
      (∀ st p, p ∈ l → rec₁ st (Prod.fst p) = rec₂ st (Prod.fst p)) →
      (∀ st p, p ∈ l → rec₁ st (Prod.snd p) = rec₂ st (Prod.snd p)) →
      ∀ st, ingestPairs rec₁ st l = ingestPairs rec₂ st l := by
  intro l
  induction l with
  | nil => intro _ _ _; rfl
  | cons p t ih =>
    intro hall1 hall2 st
    simp only [ingestPairs]
    rw [hall1 st p (List.mem_cons_self p t)]
    cases rec₂ st p.1 with
    | none => rfl
    | some st₁ =>
      dsimp only
      rw [hall2 st₁ p (List.mem_cons_self p t)]
      cases rec₂ st₁ p.2 with
      | none => rfl
      | some st₂ =>
        exact ih (fun s x hx => hall1 s x (List.mem_cons_of_mem p hx))
          (fun s x hx => hall2 s x (List.mem_cons_of_mem p hx)) st₂

theorem ingestCodeWith_frame (h₁ h₂ : Heap) (R : List Nat)
    (hag : agreeOn h₁ h₂ R) (hcl : closedOn h₁ R)
    (rec₁ rec₂ : HState → Ref → Option HState)
    (hrec : ∀ st r, refOk R r → rec₁ st r = rec₂ st r)
    (c : PyCode) (hconsts : ∀ r ∈ c.consts, refOk R r)
    (ctx : Option CodeContext)
    (hctx : ∀ x, ctx = some x →
      ctxRefsOk R x.globals ∧ ctxRefsOk R x.cells ∧ ctxRefsOk R x.varnames) :
    ∀ st, ingestCodeWith rec₁ h₁ c ctx st = ingestCodeWith rec₂ h₂ c ctx st := by
  intro st
  simp only [ingestCodeWith]
  rw [hrec st _ (refOk_imm R _)]
  cases rec₂ st (Ref.imm (.bytes (codeBytes c))) with
  | none => rfl
  | some st₁ =>
    dsimp only
    rw [ingestFold_congr rec₁ rec₂ c.consts (fun s x hx => hrec s x (hconsts x hx)) _]
    cases ingestFold rec₂ (ingestRaw st₁ .TUPLE (some (lenBytes c.consts.length))) c.consts with
    | none => rfl
    | some st₃ =>
      cases ctx with
      | none => rfl
      | some context =>
        obtain ⟨hg, hc, hv⟩ := hctx context rfl
        obtain ⟨heq, hok⟩ := extraction_frame h₁ h₂ R hag hcl c context hg hc hv
        dsimp only
        rw [← heq]
        exact ingestFold_congr rec₁ rec₂ _ (fun s x hx => hrec s x (hok x hx)) st₃

theorem objIngestWith_frame (isInt : String → Bool) (h₁ h₂ : Heap) (R : List Nat)
    (hag : agreeOn h₁ h₂ R) (hcl : closedOn h₁ R)
    (rec₁ rec₂ : HState → Ref → Option HState)
    (hrec : ∀ st r, refOk R r → rec₁ st r = rec₂ st r)
    (o : PyObj) (hchild : ∀ r ∈ objChildRefs o, refOk R r) :
    ∀ st, objIngestWith rec₁ isInt h₁ st o = objIngestWith rec₂ isInt h₂ st o := by
  intro st
  cases o with
  | list es => exact ingestFold_congr _ _ es (fun s x hx => hrec s x (hchild x hx)) _
  | tuple es => exact ingestFold_congr _ _ es (fun s x hx => hrec s x (hchild x hx)) _
  | set es => exact ingestFold_congr _ _ es (fun s x hx => hrec s x (hchild x hx)) _
  | dict ps =>
    refine ingestPairs_congr _ _ ps ?_ ?_ _
    · intro s p hp
      exact hrec s p.1 (hchild p.1 (List.mem_append_left _ (List.mem_map_of_mem Prod.fst hp)))
    · intro s p hp
      exact hrec s p.2 (hchild p.2 (List.mem_append_right _ (List.mem_map_of_mem Prod.snd hp)))
  | cell r => rfl
  | module n attrs => rfl
  | pyclass n => rfl
  | complexObj t => rfl
  | builtin m n =>
    simp only [objIngestWith]
    rw [hrec _ _ (refOk_imm R _)]
  | code cc =>
    exact ingestCodeWith_frame h₁ h₂ R hag hcl rec₁ rec₂ hrec cc
      (fun r hr => hchild r hr) Option.none (fun x hx => nomatch hx) _
  | func f =>
    simp only [objIngestWith, ingestFuncWith]
    by_cases hint : isInternalRoutine isInt f
    · rw [if_pos hint, if_pos hint, hrec _ _ (refOk_imm R _)]
    · rw [if_neg hint, if_neg hint]
      have hdef : refOk R f.defaults := hchild f.defaults (by simp [objChildRefs])
      rw [hrec _ _ hdef]
      cases rec₂ (ingestRaw st .ROUTINE Option.none) f.defaults with
      | none => rfl
      | some st₁ =>
        dsimp only
        obtain ⟨hctxeq, hgok, hcok⟩ := get_code_context_frame h₁ h₂ R hag hcl f hchild
        rw [← hctxeq]
        refine ingestCodeWith_frame h₁ h₂ R hag hcl rec₁ rec₂ hrec f.code ?_
          (some (get_code_context h₁ f)) ?_ st₁
        · intro r hr
          exact hchild r (List.mem_cons_of_mem _ (List.mem_append_right _ hr))
        · intro x hx
          cases hx
          refine ⟨hgok, hcok, ?_⟩
          intro p hp
          simp [get_code_context] at hp

theorem checkAndIngestStep_frame (isInt : String → Bool) (h₁ h₂ : Heap) (R : List Nat)
    (hag : agreeOn h₁ h₂ R) (hcl : closedOn h₁ R)
    (rec₁ rec₂ : HState → Ref → Option HState)
    (hrec : ∀ st r, refOk R r → rec₁ st r = rec₂ st r) :
    ∀ st r, refOk R r →
      checkAndIngestStep isInt h₁ rec₁ st r = checkAndIngestStep isInt h₂ rec₂ st r := by
  intro st r hr
  cases r with
  | imm v => rfl
  | addr a =>
    have haR : a ∈ R := hr a (by simp [refAddrs])
    simp only [checkAndIngestStep]
    cases hidx : st.guard.findIdx? (fun b => b == a) with
    | some i => rfl
    | none =>
      dsimp only
      rw [hag a haR]
      cases hlk : lookupObj h₂ a with
      | none => rfl
      | some o =>
        dsimp only
        have hchild : ∀ r' ∈ objChildRefs o, refOk R r' := by
          intro r' hr'
          have hca : childRefsAt h₁ a = objChildRefs o :=
            childRefsAt_eq h₁ a o (by rw [hag a haR, hlk])
          exact hcl a haR r' (by rw [hca]; exact hr')
        rw [objIngestWith_frame isInt h₁ h₂ R hag hcl rec₁ rec₂ hrec o hchild
          { st with guard := st.guard ++ [a] }]

theorem checkAndIngest_frame (isInt : String → Bool) (h₁ h₂ : Heap) (R : List Nat)
    (hag : agreeOn h₁ h₂ R) (hcl : closedOn h₁ R) :
    ∀ (fuel : Nat) (st : HState) (r : Ref), refOk R r →
      checkAndIngest isInt h₁ fuel st r = checkAndIngest isInt h₂ fuel st r := by
  intro fuel
  induction fuel with
  | zero =>
    exact checkAndIngestStep_frame isInt h₁ h₂ R hag hcl _ _ (fun _ _ _ => rfl)
  | succ n ih =>
    exact checkAndIngestStep_frame isInt h₁ h₂ R hag hcl _ _ (fun s x hx => ih s x hx)

/-!
### Termination: the cycle guard makes every hash of a closed heap finish
-/

theorem ingestFold_isSome (rec : HState → Ref → Option HState)
    (hguard : ∀ s x s', rec s x = some s' → s'.guard = s.guard) :
    ∀ (l : List Ref) (st : HState),
      (∀ s x, s.guard = st.guard → x ∈ l → (rec s x).isSome) →
      (ingestFold rec st l).isSome
      ∧ ∀ st', ingestFold rec st l = some st' → st'.guard = st.guard := by
  intro l
  induction l with
  | nil =>
    intro st _
    refine ⟨rfl, ?_⟩
    intro st' hst'
    simp only [ingestFold, Option.some.injEq] at hst'
    rw [← hst']
  | cons r t ih =>
    intro st hall
    have h1 := hall st r rfl (List.mem_cons_self r t)
    cases hres : rec st r with
    | none => rw [hres] at h1; exact absurd h1 (by simp)
    | some s₁ =>
      have hg1 : s₁.guard = st.guard := hguard st r s₁ hres
      have hrest := ih s₁
        (fun s x hsx hx => hall s x (by rw [hsx, hg1]) (List.mem_cons_of_mem r hx))
      constructor
      · simp only [ingestFold, hres]
        exact hrest.1
      · intro st' hst'
        simp only [ingestFold, hres] at hst'
        rw [hrest.2 st' hst', hg1]

theorem ingestPairs_isSome (rec : HState → Ref → Option HState)
    (hguard : ∀ s x s', rec s x = some s' → s'.guard = s.guard) :
    ∀ (l : List (Ref × Ref)) (st : HState),
      (∀ s p, s.guard = st.guard → p ∈ l → (rec s (Prod.fst p)).isSome) →
      (∀ s p, s.guard = st.guard → p ∈ l → (rec s (Prod.snd p)).isSome) →
      (ingestPairs rec st l).isSome
      ∧ ∀ st', ingestPairs rec st l = some st' → st'.guard = st.guard := by
  intro l
  induction l with
  | nil =>
    intro st _ _
    refine ⟨rfl, ?_⟩
    intro st' hst'
    simp only [ingestPairs, Option.some.injEq] at hst'
    rw [← hst']
  | cons p t ih =>
    intro st hall1 hall2
    have h1 := hall1 st p rfl (List.mem_cons_self p t)
    cases hres1 : rec st p.1 with
    | none => rw [hres1] at h1; exact absurd h1 (by simp)
    | some s₁ =>
      have hg1 : s₁.guard = st.guard := hguard st p.1 s₁ hres1
      have h2 := hall2 s₁ p hg1 (List.mem_cons_self p t)
      cases hres2 : rec s₁ p.2 with
      | none => rw [hres2] at h2; exact absurd h2 (by simp)
      | some s₂ =>
        have hg2 : s₂.guard = st.guard := by
          rw [hguard s₁ p.2 s₂ hres2, hg1]
        have hrest := ih s₂
          (fun s x hsx hx => hall1 s x (by rw [hsx, hg2]) (List.mem_cons_of_mem p hx))
          (fun s x hsx hx => hall2 s x (by rw [hsx, hg2]) (List.mem_cons_of_mem p hx))
        constructor
        · simp only [ingestPairs, hres1, hres2]
          exact hrest.1
        · intro st' hst'
          simp only [ingestPairs, hres1, hres2] at hst'
          rw [hrest.2 st' hst', hg2]

theorem ingestCodeWith_isSome (h : Heap) (R : List Nat) (hcl : closedOn h R) (f : Nat)
    (rec : HState → Ref → Option HState)
    (hguard : ∀ s x s', rec s x = some s' → s'.guard = s.guard)
    (hrec : ∀ s x, refOk R x → freeCount h s.guard < f → (rec s x).isSome)
    (c : PyCode) (hconsts : ∀ r ∈ c.consts, refOk R r)
    (ctx : Option CodeContext)
    (hctx : ∀ x, ctx = some x →
      ctxRefsOk R x.globals ∧ ctxRefsOk R x.cells ∧ ctxRefsOk R x.varnames) :
    ∀ st, freeCount h st.guard < f → (ingestCodeWith rec h c ctx st).isSome := by
  intro st hcount
  have h1 : (rec st (Ref.imm (.bytes (codeBytes c)))).isSome :=
    hrec st _ (refOk_imm _ _) hcount
  obtain ⟨st₁, hst₁⟩ := Option.isSome_iff_exists.mp h1
  have hg1 : st₁.guard = st.guard := hguard st _ st₁ hst₁
  simp only [ingestCodeWith, hst₁]
  have hfold := ingestFold_isSome rec hguard c.consts
    (ingestRaw st₁ .TUPLE (some (lenBytes c.consts.length)))
    (fun s x hsx hx => hrec s x (hconsts x hx)
      (by rw [show s.guard = st.guard from by rw [hsx, ingestRaw_guard, hg1]]; exact hcount))
  obtain ⟨st₃, hst₃⟩ := Option.isSome_iff_exists.mp hfold.1
  have hg3 : st₃.guard = st.guard := by
    rw [hfold.2 st₃ hst₃, ingestRaw_guard, hg1]
  simp only [hst₃]
  cases ctx with
  | none => rfl
  | some context =>
    obtain ⟨hg, hc, hv⟩ := hctx context rfl
    have hok := (extraction_frame h h R (agreeOn_refl h _) hcl c context hg hc hv).2
    exact (ingestFold_isSome rec hguard _ st₃
      (fun s x hsx hx => hrec s x (hok x hx)
        (by rw [show s.guard = st.guard from by rw [hsx, hg3]]; exact hcount))).1

theorem objIngestWith_isSome (isInt : String → Bool) (h : Heap) (R : List Nat)
    (hcl : closedOn h R)
    (f : Nat) (rec : HState → Ref → Option HState)
    (hguard : ∀ s x s', rec s x = some s' → s'.guard = s.guard)
    (hrec : ∀ s x, refOk R x → freeCount h s.guard < f → (rec s x).isSome)
    (o : PyObj) (hchild : ∀ r ∈ objChildRefs o, refOk R r) :
    ∀ st, freeCount h st.guard < f → (objIngestWith rec isInt h st o).isSome := by
  intro st hcount
  cases o with
  | list es =>
    exact (ingestFold_isSome rec hguard es _
      (fun s x hsx hx => hrec s x (hchild x hx)
        (by rw [show s.guard = st.guard from by rw [hsx, ingestRaw_guard]]; exact hcount))).1
  | tuple es =>
    exact (ingestFold_isSome rec hguard es _
      (fun s x hsx hx => hrec s x (hchild x hx)
        (by rw [show s.guard = st.guard from by rw [hsx, ingestRaw_guard]]; exact hcount))).1
  | set es =>
    exact (ingestFold_isSome rec hguard es _
      (fun s x hsx hx => hrec s x (hchild x hx)
        (by rw [show s.guard = st.guard from by rw [hsx, ingestRaw_guard]]; exact hcount))).1
  | dict ps =>
    refine (ingestPairs_isSome rec hguard ps _ ?_ ?_).1
    · intro s p hsx hp
      refine hrec s p.1 (hchild p.1 (List.mem_append_left _ (List.mem_map_of_mem Prod.fst hp))) ?_
      rw [show s.guard = st.guard from by rw [hsx, ingestRaw_guard]]
      exact hcount
    · intro s p hsx hp
      refine hrec s p.2 (hchild p.2 (List.mem_append_right _ (List.mem_map_of_mem Prod.snd hp))) ?_
      rw [show s.guard = st.guard from by rw [hsx, ingestRaw_guard]]
      exact hcount
  | cell r => rfl
  | module n attrs => rfl
  | pyclass n => rfl
  | complexObj t => rfl
  | builtin m n =>
    exact hrec _ _ (refOk_imm _ _) (by rw [ingestRaw_guard]; exact hcount)
  | code cc =>
    exact ingestCodeWith_isSome h R hcl f rec hguard hrec cc (fun r hr => hchild r hr)
      Option.none (fun x hx => nomatch hx) _ (by rw [ingestRaw_guard]; exact hcount)
  | func fn =>
    simp only [objIngestWith, ingestFuncWith]
    by_cases hint : isInternalRoutine isInt fn
    · rw [if_pos hint]
      exact hrec _ _ (refOk_imm _ _) (by rw [ingestRaw_guard]; exact hcount)
    · rw [if_neg hint]
      have hdef : refOk R fn.defaults :=
        hchild fn.defaults (by simp [objChildRefs])
      have h1 : (rec (ingestRaw st .ROUTINE Option.none) fn.defaults).isSome :=
        hrec _ _ hdef (by rw [ingestRaw_guard]; exact hcount)
      obtain ⟨st₁, hst₁⟩ := Option.isSome_iff_exists.mp h1
      have hg1 : st₁.guard = st.guard := by
        rw [hguard _ _ st₁ hst₁, ingestRaw_guard]
      simp only [hst₁]
      obtain ⟨_, hgok, hcok⟩ :=
        get_code_context_frame h h R (agreeOn_refl h _) hcl fn hchild
      refine ingestCodeWith_isSome h R hcl f rec hguard hrec fn.code ?_
        (some (get_code_context h fn)) ?_ st₁ (by rw [hg1]; exact hcount)
      · intro r hr
        exact hchild r (List.mem_cons_of_mem _ (List.mem_append_right _ hr))
      · intro x hx
        cases hx
        refine ⟨hgok, hcok, ?_⟩
        intro p hp
        simp [get_code_context] at hp

theorem checkAndIngestStep_isSome (isInt : String → Bool) (h : Heap) (R : List Nat)
    (hcl : closedOn h R) (hsub : ∀ a ∈ R, a ∈ heapAddrs h)
    (f : Nat) (rec : HState → Ref → Option HState)
    (hguard : ∀ s x s', rec s x = some s' → s'.guard = s.guard)
    (hrec : ∀ s x, refOk R x → freeCount h s.guard < f → (rec s x).isSome) :
    ∀ st r, refOk R r → freeCount h st.guard < f + 1 →
      (checkAndIngestStep isInt h rec st r).isSome := by
  intro st r hr hcount
  cases r with
  | imm v => rfl
  | addr a =>
    simp only [checkAndIngestStep]
    cases hidx : st.guard.findIdx? (fun b => b == a) with
    | some i => rfl
    | none =>
      dsimp only
      have haR : a ∈ R := hr a (by simp [refAddrs])
      have haA : a ∈ heapAddrs h := hsub a haR
      have hnotin : a ∉ st.guard := by
        intro hmem
        have := List.findIdx?_eq_none_iff.mp hidx a hmem
        simp at this
      have hlt : freeCount h (st.guard ++ [a]) < f := by
        have := freeCount_push h st.guard a haA hnotin
        omega
      obtain ⟨o, ho⟩ := lookupObj_of_mem h a haA
      rw [ho]
      dsimp only
      have hchild : ∀ r' ∈ objChildRefs o, refOk R r' := by
        intro r' hr'
        exact hcl a haR r' (by rw [childRefsAt_eq h a o ho]; exact hr')
      have hobj := objIngestWith_isSome isInt h R hcl f rec hguard hrec o hchild
        { st with guard := st.guard ++ [a] } hlt
      obtain ⟨st', hst'⟩ := Option.isSome_iff_exists.mp hobj
      simp [hst']

theorem checkAndIngest_isSome (isInt : String → Bool) (h : Heap) (R : List Nat)
    (hcl : closedOn h R) (hsub : ∀ a ∈ R, a ∈ heapAddrs h) :
    ∀ (fuel : Nat) (st : HState) (r : Ref), refOk R r →
      freeCount h st.guard < fuel → (checkAndIngest isInt h fuel st r).isSome := by
  intro fuel
  induction fuel with
  | zero =>
    intro st r _ hcount
    exact absurd hcount (by omega)
  | succ n ih =>
    intro st r hr hcount
    exact checkAndIngestStep_isSome isInt h R hcl hsub n (checkAndIngest isInt h n)
      (checkAndIngest_guard isInt h n) (fun s x hx hc => ih s x hx hc) st r hr hcount

/-- Claim C7: cycle safety.  For every closed heap (every live Python
object graph is closed) and every value in it — self-referential
containers and mutually recursive routines included — one top-level hash
invocation terminates and returns a digest; and the cycle guard still
distinguishes differently shaped cycles: the two circular dict chains of
`test_code_hasher`, which differ only in their back-edge, hash to
different digests. -/
theorem C7_theorem :
    (∀ (isInt : String → Bool) (h : Heap) (r : Ref),
      heapClosed h → refOk (heapAddrs h) r → (CodeHasher.hash isInt h r).isSome)
    ∧ CodeHasher.hash c1External c7Heap (.addr 1)
      ≠ CodeHasher.hash c1External c7Heap (.addr 4) := by
  constructor
  · intro isInt h r hcl hr
    have hguard0 : initHState.guard = ([] : List Nat) := rfl
    have hlt : freeCount h initHState.guard < hashFuel h := by
      rw [hguard0]
      have := freeCount_le h ([] : List Nat)
      simp only [hashFuel]
      omega
    have hsome := checkAndIngest_isSome isInt h (heapAddrs h) hcl (fun a ha => ha)
      (hashFuel h) initHState r hr hlt
    obtain ⟨st', hst'⟩ := Option.isSome_iff_exists.mp hsome
    simp [CodeHasher.hash, hashRun, hst']
  · decide

/-- Witness for C7: the first circular dict chain is a closed cyclic heap
and its hash invocation returns a digest. -/
theorem C7_witness :
    (heapClosed c7Heap ∧ refOk (heapAddrs c7Heap) (.addr 1))
    ∧ (CodeHasher.hash c1External c7Heap (.addr 1)).isSome :=
  ⟨⟨by decide, by decide⟩,
    C7_theorem.1 c1External c7Heap (.addr 1) (by decide) (by decide)⟩

/-!
### Fuel monotonicity: a successful run is unchanged by extra fuel
-/

theorem ingestFold_mono (rec₁ rec₂ : HState → Ref → Option HState)
    (hrec : ∀ s x y, rec₁ s x = some y → rec₂ s x = some y) :
    ∀ (l : List Ref) (st y : HState),
      ingestFold rec₁ st l = some y → ingestFold rec₂ st l = some y := by
  intro l
  induction l with
  | nil => intro st y hy; exact hy
  | cons r t ih =>
    intro st y hy
    simp only [ingestFold] at hy ⊢
    cases hres : rec₁ st r with
    | none => rw [hres] at hy; exact absurd hy (by simp)
    | some s₁ =>
      rw [hres] at hy
      rw [hrec st r s₁ hres]
      exact ih s₁ y hy

theorem ingestPairs_mono (rec₁ rec₂ : HState → Ref → Option HState)
    (hrec : ∀ s x y, rec₁ s x = some y → rec₂ s x = some y) :
    ∀ (l : List (Ref × Ref)) (st y : HState),
      ingestPairs rec₁ st l = some y → ingestPairs rec₂ st l = some y := by
  intro l
  induction l with
  | nil => intro st y hy; exact hy
  | cons p t ih =>
    intro st y hy
    simp only [ingestPairs] at hy ⊢
    cases hres1 : rec₁ st p.1 with
    | none => rw [hres1] at hy; exact absurd hy (by simp)
    | some s₁ =>
      rw [hres1] at hy
      rw [hrec st p.1 s₁ hres1]
      dsimp only at hy ⊢
      cases hres2 : rec₁ s₁ p.2 with
      | none => rw [hres2] at hy; exact absurd hy (by simp)
      | some s₂ =>
        rw [hres2] at hy
        rw [hrec s₁ p.2 s₂ hres2]
        exact ih s₂ y hy

theorem ingestCodeWith_mono (h : Heap) (rec₁ rec₂ : HState → Ref → Option HState)
    (hrec : ∀ s x y, rec₁ s x = some y → rec₂ s x = some y)
    (c : PyCode) (ctx : Option CodeContext) :
    ∀ (st y : HState),
      ingestCodeWith rec₁ h c ctx st = some y → ingestCodeWith rec₂ h c ctx st = some y := by
  intro st y hy
  simp only [ingestCodeWith] at hy ⊢
  cases hres : rec₁ st (Ref.imm (.bytes (codeBytes c))) with
  | none => rw [hres] at hy; exact absurd hy (by simp)
  | some s₁ =>
    rw [hres] at hy
    rw [hrec st _ s₁ hres]
    dsimp only at hy ⊢
    cases hfold : ingestFold rec₁ (ingestRaw s₁ .TUPLE (some (lenBytes c.consts.length)))
        c.consts with
    | none => rw [hfold] at hy; exact absurd hy (by simp)
    | some s₃ =>
      rw [hfold] at hy
      rw [ingestFold_mono rec₁ rec₂ hrec c.consts _ s₃ hfold]
      dsimp only at hy ⊢
      cases ctx with
      | none => exact hy
      | some context => exact ingestFold_mono rec₁ rec₂ hrec _ s₃ y hy

theorem objIngestWith_mono (isInt : String → Bool) (h : Heap)
    (rec₁ rec₂ : HState → Ref → Option HState)
    (hrec : ∀ s x y, rec₁ s x = some y → rec₂ s x = some y)
    (o : PyObj) :
    ∀ (st y : HState),
      objIngestWith rec₁ isInt h st o = some y → objIngestWith rec₂ isInt h st o = some y := by
  intro st y hy
  cases o with
  | list es => exact ingestFold_mono rec₁ rec₂ hrec es _ y hy
  | tuple es => exact ingestFold_mono rec₁ rec₂ hrec es _ y hy
  | set es => exact ingestFold_mono rec₁ rec₂ hrec es _ y hy
  | dict ps => exact ingestPairs_mono rec₁ rec₂ hrec ps _ y hy
  | cell r => exact hy
  | module n attrs => exact hy
  | pyclass n => exact hy
  | complexObj t => exact hy
  | builtin m n => exact hrec _ _ y hy
  | code cc => exact ingestCodeWith_mono h rec₁ rec₂ hrec cc Option.none _ y hy
  | func fn =>
    simp only [objIngestWith, ingestFuncWith] at hy ⊢
    by_cases hint : isInternalRoutine isInt fn
    · rw [if_pos hint] at hy ⊢
      exact hrec _ _ y hy
    · rw [if_neg hint] at hy ⊢
      cases hres : rec₁ (ingestRaw st .ROUTINE Option.none) fn.defaults with
      | none => rw [hres] at hy; exact absurd hy (by simp)
      | some s₁ =>
        rw [hres] at hy
        rw [hrec _ _ s₁ hres]
        exact ingestCodeWith_mono h rec₁ rec₂ hrec fn.code _ s₁ y hy

theorem checkAndIngestStep_mono (isInt : String → Bool) (h : Heap)
    (rec₁ rec₂ : HState → Ref → Option HState)
    (hrec : ∀ s x y, rec₁ s x = some y → rec₂ s x = some y) :
    ∀ (st : HState) (r : Ref) (y : HState),
      checkAndIngestStep isInt h rec₁ st r = some y
      → checkAndIngestStep isInt h rec₂ st r = some y := by
  intro st r y hy
  cases r with
  | imm v => exact hy
  | addr a =>
    simp only [checkAndIngestStep] at hy ⊢
    cases hidx : st.guard.findIdx? (fun b => b == a) with
    | some i => rw [hidx] at hy; exact hy
    | none =>
      rw [hidx] at hy
      dsimp only at hy ⊢
      cases hlk : lookupObj h a with
      | none => rw [hlk] at hy; exact absurd hy (by simp)
      | some o =>
        rw [hlk] at hy
        dsimp only at hy ⊢
        rw [Option.map_eq_some'] at hy ⊢
        obtain ⟨y₀, hy₀, hyy⟩ := hy
        exact ⟨y₀, objIngestWith_mono isInt h rec₁ rec₂ hrec o _ y₀ hy₀, hyy⟩

theorem checkAndIngest_mono (isInt : String → Bool) (h : Heap) :
    ∀ (fuel : Nat) (st : HState) (r : Ref) (y : HState),
      checkAndIngest isInt h fuel st r = some y
      → checkAndIngest isInt h (fuel + 1) st r = some y := by
  intro fuel
  induction fuel with
  | zero =>
    exact checkAndIngestStep_mono isInt h _ _ (fun s x y hy => absurd hy (by simp))
  | succ n ih =>
    exact checkAndIngestStep_mono isInt h _ _ (fun s x y hy => ih s x y hy)

theorem checkAndIngest_mono_le (isInt : String → Bool) (h : Heap)
    (fuel fuel' : Nat) (hle : fuel ≤ fuel') :
    ∀ (st : HState) (r : Ref) (y : HState),
      checkAndIngest isInt h fuel st r = some y
      → checkAndIngest isInt h fuel' st r = some y := by
  induction hle with
  | refl => exact fun st r y hy => hy
  | step hle ih =>
    intro st r y hy
    exact checkAndIngest_mono isInt h _ st r y (ih st r y hy)

/-!
### The frame conditions transfer from one heap to the other
-/

theorem closedOn_of_agree (h₁ h₂ : Heap) (R : List Nat)
    (hag : agreeOn h₁ h₂ R) (hcl : closedOn h₁ R) : closedOn h₂ R := by
  intro a ha r hr b hb
  have hca : childRefsAt h₂ a = childRefsAt h₁ a := by
    unfold childRefsAt
    rw [← hag a ha]
  exact hcl a ha r (by rw [← hca]; exact hr) b hb

theorem mem_heapAddrs_of_lookup (h : Heap) (a : Nat) (o : PyObj) :
    lookupObj h a = some o → a ∈ heapAddrs h := by
  induction h with
  | nil => intro hh; simp [lookupObj] at hh
  | cons p t ih =>
    intro hh
    by_cases hp : p.1 == a
    · have : p.1 = a := by simpa using hp
      simp [heapAddrs, this]
    · have hh' : lookupObj t a = some o := by
        simpa [lookupObj, List.find?, hp] using hh
      have := ih hh'
      simp only [heapAddrs, List.map_cons, List.mem_cons]
      right
      simpa [heapAddrs] using this

theorem subset_heapAddrs_of_agree (h₁ h₂ : Heap) (R : List Nat)
    (hag : agreeOn h₁ h₂ R) (hsub : ∀ a ∈ R, a ∈ heapAddrs h₁) :
    ∀ a ∈ R, a ∈ heapAddrs h₂ := by
  intro a ha
  obtain ⟨o, ho⟩ := lookupObj_of_mem h₁ a (hsub a ha)
  exact mem_heapAddrs_of_lookup h₂ a o (by rw [← hag a ha]; exact ho)

/-- Claim C4: determinism of `hash`.  A top-level invocation starts from a
fresh per-call state (`initHState`) and reads nothing but the input value
and its transitive references: if two heaps agree on a reference-closed
address set `R` covering the hashed value — i.e. neither the value nor
anything transitively reachable from it changed between the two
invocations, whatever else in the process changed, was allocated or was
freed — both invocations return the same digest and the same warnings.
Two invocations against a literally unchanged heap are the special case
`h₁ = h₂`. -/
theorem C4_theorem (isInt : String → Bool) (h₁ h₂ : Heap) (R : List Nat) (r : Ref)
    (hag : agreeOn h₁ h₂ R) (hcl : closedOn h₁ R)
    (hsub : ∀ a ∈ R, a ∈ heapAddrs h₁) (hr : refOk R r) :
    CodeHasher.hash isInt h₁ r = CodeHasher.hash isInt h₂ r
    ∧ CodeHasher.warnings isInt h₁ r = CodeHasher.warnings isInt h₂ r := by
  have hguard0 : initHState.guard = ([] : List Nat) := rfl
  have hlt₁ : freeCount h₁ initHState.guard < hashFuel h₁ := by
    rw [hguard0]
    have := freeCount_le h₁ ([] : List Nat)
    simp only [hashFuel]
    omega
  have hsome₁ := checkAndIngest_isSome isInt h₁ R hcl hsub (hashFuel h₁) initHState r hr hlt₁
  have hcl₂ := closedOn_of_agree h₁ h₂ R hag hcl
  have hsub₂ := subset_heapAddrs_of_agree h₁ h₂ R hag hsub
  have hlt₂ : freeCount h₂ initHState.guard < hashFuel h₂ := by
    rw [hguard0]
    have := freeCount_le h₂ ([] : List Nat)
    simp only [hashFuel]
    omega
  have hsome₂ := checkAndIngest_isSome isInt h₂ R hcl₂ hsub₂ (hashFuel h₂) initHState r hr hlt₂
  obtain ⟨x₁, hx₁⟩ := Option.isSome_iff_exists.mp hsome₁
  obtain ⟨x₂, hx₂⟩ := Option.isSome_iff_exists.mp hsome₂
  have hx₁' := checkAndIngest_mono_le isInt h₁ (hashFuel h₁)
    (max (hashFuel h₁) (hashFuel h₂)) (le_max_left _ _) initHState r x₁ hx₁
  have hx₂' := checkAndIngest_mono_le isInt h₂ (hashFuel h₂)
    (max (hashFuel h₁) (hashFuel h₂)) (le_max_right _ _) initHState r x₂ hx₂
  have hframe := checkAndIngest_frame isInt h₁ h₂ R hag hcl
    (max (hashFuel h₁) (hashFuel h₂)) initHState r hr
  have hx : x₁ = x₂ := by
    have : some x₁ = some x₂ := by rw [← hx₁', hframe, hx₂']
    exact Option.some.injEq x₁ x₂ ▸ this
  unfold CodeHasher.hash CodeHasher.warnings hashRun
  rw [hx₁, hx₂, hx]
  exact ⟨rfl, rfl⟩

/-- Witness for C4: the value at address 1 (a list sharing the list at
address 2) hashes identically in two heaps that differ at the unrelated
address 3. -/
theorem C4_witness :
    (agreeOn c4Heap₁ c4Heap₂ [1, 2] ∧ closedOn c4Heap₁ [1, 2]
      ∧ (∀ a ∈ ([1, 2] : List Nat), a ∈ heapAddrs c4Heap₁)
      ∧ refOk [1, 2] (.addr 1))
    ∧ CodeHasher.hash c1External c4Heap₁ (.addr 1)
      = CodeHasher.hash c1External c4Heap₂ (.addr 1) :=
  ⟨⟨by decide, by decide, by decide, by decide⟩,
    (C4_theorem c1External c4Heap₁ c4Heap₂ [1, 2] (.addr 1)
      (by decide) (by decide) (by decide) (by decide)).1⟩

/-- Claim C5: the digest of an external routine is a function of exactly
its ingredients — raw instruction bytes, constants, default-parameter
values and extracted reference sequence.  Two routines whose ingredients
coincide are ingested identically from any hasher state, even though
their `name`, `qualname`, `filename`, `firstlineno`, name tables and
defining modules may all differ; concretely, the two functions with
identical bodies referencing differently named globals bound to equal
values hash to the same digest. -/
theorem C5_theorem :
    (∀ (isInt : String → Bool) (h : Heap) (fuel : Nat) (st : HState) (f g : PyFunc),
      isInternalRoutine isInt f = false → isInternalRoutine isInt g = false →
      f.code.instrs = g.code.instrs → f.code.consts = g.code.consts →
      f.defaults = g.defaults → getRefs h f = getRefs h g →
      objIngestWith (checkAndIngest isInt h fuel) isInt h st (.func f)
        = objIngestWith (checkAndIngest isInt h fuel) isInt h st (.func g))
    ∧ CodeHasher.hash c1External c5Heap (.addr 1)
      = CodeHasher.hash c1External c5Heap (.addr 2) := by
  constructor
  · intro isInt h fuel st f g hfi hgi hinstr hconsts hdef hrefs
    simp only [objIngestWith, ingestFuncWith]
    rw [if_neg (by simp [hfi]), if_neg (by simp [hgi]), hdef]
    cases checkAndIngest isInt h fuel (ingestRaw st .ROUTINE Option.none) g.defaults with
    | none => rfl
    | some st₁ =>
      dsimp only
      have hbytes : codeBytes f.code = codeBytes g.code := by
        unfold codeBytes
        rw [hinstr]
      have hextr : get_referenced_objects h f.code (get_code_context h f)
          = get_referenced_objects h g.code (get_code_context h g) := hrefs
      simp only [ingestCodeWith, hbytes, hconsts, hextr]
  · decide

/-- Witness for C5: the two concrete functions `g1`/`g2` satisfy every
ingredient equality while differing in name, location and referenced
global names, and are ingested identically. -/
theorem C5_witness :
    (isInternalRoutine c1External c5F1 = false
      ∧ isInternalRoutine c1External c5F2 = false
      ∧ c5F1.code.instrs = c5F2.code.instrs
      ∧ c5F1.code.consts = c5F2.code.consts
      ∧ c5F1.defaults = c5F2.defaults
      ∧ getRefs c5Heap c5F1 = getRefs c5Heap c5F2)
    ∧ objIngestWith (checkAndIngest c1External c5Heap 2) c1External c5Heap
        initHState (.func c5F1)
      = objIngestWith (checkAndIngest c1External c5Heap 2) c1External c5Heap
        initHState (.func c5F2) :=
  ⟨⟨by decide, by decide, by decide, by decide, by decide, by decide⟩,
    C5_theorem.1 c1External c5Heap 2 initHState c5F1 c5F2
      (by decide) (by decide) (by decide) (by decide) (by decide) (by decide)⟩

end Bionic
